import Mathlib

/-!
Verification development for the Email-Agent invoice pipeline.

The Python sources are embedded shallowly:

* `src/services/extractor/worker.py` — field extraction (`extract_field` for
  `total_amount`, `_extract_vendor_from_text`, `extract_text_from_pdf` text/OCR
  decision);
* `src/services/reconciler/worker.py` — fuzzy vendor/project reconciliation
  (`match_vendor`, `reconcile_invoice`, the worker batch loop);
* `src/services/extractor/categorizer.py` — item categorization and BOM
  numbering (`categorize_items_with_ollama`, `_categorize_with_keywords`);
* `src/services/api/sync_inbox.py`, `src/services/worker/message_adapter.py`,
  `src/services/extractor/worker.py::process_extraction_job` — the ingestion
  paths and their idempotency checks.

Strings are modelled as `List Char` over ASCII text (all inputs of interest are
ASCII).  The regular expressions of the source are embedded as specialised
deterministic matchers; where Python's backtracking regex engine could in
principle explore several decompositions, the character classes involved are
disjoint from what follows them, so maximal-munch matching computes the same
match (this is noted at each matcher).
-/

namespace EmailAgent

/-- Strings are modelled as lists of characters. -/
abbrev Str := List Char

/-- Coerce a Lean string literal to the `List Char` model. -/
def str (s : String) : Str := s.data

/-- ASCII lowercasing, modelling Python `str.lower()` on ASCII text. -/
def asciiLower (c : Char) : Char :=
  if 'A' ≤ c ∧ c ≤ 'Z' then Char.ofNat (c.toNat + 32) else c

/-- ASCII uppercasing, modelling Python `str.upper()` on ASCII text. -/
def asciiUpper (c : Char) : Char :=
  if 'a' ≤ c ∧ c ≤ 'z' then Char.ofNat (c.toNat - 32) else c

/-- Lowercase a whole string. -/
def lowerStr (s : Str) : Str := s.map asciiLower

/-- Uppercase a whole string. -/
def upperStr (s : Str) : Str := s.map asciiUpper

/-- The whitespace characters of the regex class `\s` (ASCII fragment). -/
def spaceChars : Str := [' ', '\t', '\n', '\r', '\x0b', '\x0c']

/-- Is `c` a whitespace character? -/
def isSpaceChar (c : Char) : Bool := spaceChars.contains c

/-- The decimal digits, the regex class `\d` (ASCII fragment). -/
def digitChars : Str := ['0', '1', '2', '3', '4', '5', '6', '7', '8', '9']

/-- Is `c` a decimal digit? -/
def isDigitChar (c : Char) : Bool := digitChars.contains c

/-- The regex class `[\d,]`. -/
def isDigitComma (c : Char) : Bool := isDigitChar c || c = ','

/-- Does `hay` start with `needle` (case-sensitive)? -/
def hasPref : Str → Str → Bool
  | [], _ => true
  | _ :: _, [] => false
  | a :: as, b :: bs => a = b && hasPref as bs

/-- Python's substring test `needle in hay`. -/
def isSubstr (needle : Str) : Str → Bool
  | [] => needle.isEmpty
  | c :: t => hasPref needle (c :: t) || isSubstr needle t

/-- Python `str.strip()`: drop leading and trailing whitespace. -/
def pystrip (s : Str) : Str :=
  ((s.dropWhile isSpaceChar).reverse.dropWhile isSpaceChar).reverse

/-- Python `text.split('\n')` (keeps empty pieces). -/
def splitLines (s : Str) : List Str := s.splitOn '\n'

/-- Python `"\n".join(parts)`. -/
def joinNL (parts : List Str) : Str := (parts.intersperse (str "\n")).flatten

/-!
### The `total_amount` regex patterns (worker.py lines 48-62)

Each pattern is a sequence of components: case-insensitive literals (all the
patterns carry `re.IGNORECASE`), `\s+` / `\s*` runs, optional single characters
(`:?`, `\$?`), the capturing group `([\d,]+\.?\d*)`, and the alternations
`(?:amount|due)?` and `(?:total|paid|due)`.  Because every component's
character set is disjoint from the first character of the component that
follows it, greedy backtracking matching coincides with deterministic
maximal-munch matching, which is what `runTok` implements.
-/

/-- State of a partial match: `consumed` is the text matched so far (group 0),
`group` the text captured by the numeric group, `rest` the remaining input. -/
structure MState where
  consumed : Str
  group : Str
  rest : Str
  deriving Repr, DecidableEq

/-- One component of a `total_amount` pattern. -/
inductive Tok where
  | lit (w : Str)
  | ws1
  | ws0
  | copt (c : Char)
  | num
  | alt (ws : List Str)
  | optAlt (ws : List Str)
  deriving Repr, DecidableEq

/-- The optional dot `\.?` of the numeric group: split a leading dot off. -/
def dotSplit : Str → Str × Str
  | '.' :: t => (['.'], t)
  | r => ([], r)

/-- Consume a case-insensitive literal: returns the consumed original-case
characters and the remaining input. -/
def consumeLit : Str → Str → Option (Str × Str)
  | [], s => some ([], s)
  | _ :: _, [] => none
  | p :: ps, c :: cs =>
      if asciiLower c = p then
        (consumeLit ps cs).map (fun r => (c :: r.1, r.2))
      else none

/-- First alternative of an alternation that matches (regex alternation order). -/
def firstLit (ws : List Str) (s : Str) : Option (Str × Str) :=
  match ws with
  | [] => none
  | w :: rest =>
    match consumeLit w s with
    | some r => some r
    | none => firstLit rest s

/-- Run one pattern component (deterministic maximal munch). -/
def runTok : Tok → MState → Option MState
  | .lit w, st =>
      (consumeLit w st.rest).map (fun r =>
        { st with consumed := st.consumed ++ r.1, rest := r.2 })
  | .ws1, st =>
      let run := st.rest.takeWhile isSpaceChar
      if run.isEmpty then none
      else some { st with consumed := st.consumed ++ run, rest := st.rest.dropWhile isSpaceChar }
  | .ws0, st =>
      some { st with consumed := st.consumed ++ st.rest.takeWhile isSpaceChar,
                     rest := st.rest.dropWhile isSpaceChar }
  | .copt c, st =>
      match st.rest with
      | c' :: rest' =>
          if c' = c then
            some { st with consumed := st.consumed ++ [c], rest := rest' }
          else some st
      | [] => some st
  | .num, st =>
      let d1 := st.rest.takeWhile isDigitComma
      if d1.isEmpty then none
      else
        let ds := dotSplit (st.rest.dropWhile isDigitComma)
        let d2 := ds.2.takeWhile isDigitChar
        let g := d1 ++ ds.1 ++ d2
        some { consumed := st.consumed ++ g, group := g, rest := ds.2.dropWhile isDigitChar }
  | .alt ws, st =>
      (firstLit ws st.rest).map (fun r =>
        { st with consumed := st.consumed ++ r.1, rest := r.2 })
  | .optAlt ws, st =>
      match firstLit ws st.rest with
      | some r => some { st with consumed := st.consumed ++ r.1, rest := r.2 }
      | none => some st

/-- Run a whole pattern. -/
def runToks : List Tok → MState → Option MState
  | [], st => some st
  | t :: ts, st => (runTok t st).bind (runToks ts)

/-- `r'order\s+total\s*:?\s*\$?\s*([\d,]+\.?\d*)'` -/
def pat_order_total_colon : List Tok :=
  [.lit (str "order"), .ws1, .lit (str "total"), .ws0, .copt ':', .ws0, .copt '$', .ws0, .num]

/-- `r'order\s+total\s+\$?\s*([\d,]+\.?\d*)'` -/
def pat_order_total_space : List Tok :=
  [.lit (str "order"), .ws1, .lit (str "total"), .ws1, .copt '$', .ws0, .num]

/-- `r'grand\s+total\s*:?\s*\$?\s*([\d,]+\.?\d*)'` -/
def pat_grand_total : List Tok :=
  [.lit (str "grand"), .ws1, .lit (str "total"), .ws0, .copt ':', .ws0, .copt '$', .ws0, .num]

/-- `r'amount\s+due\s*:?\s*\$?\s*([\d,]+\.?\d*)'` -/
def pat_amount_due : List Tok :=
  [.lit (str "amount"), .ws1, .lit (str "due"), .ws0, .copt ':', .ws0, .copt '$', .ws0, .num]

/-- `r'balance\s+due\s*:?\s*\$?\s*([\d,]+\.?\d*)'` -/
def pat_balance_due : List Tok :=
  [.lit (str "balance"), .ws1, .lit (str "due"), .ws0, .copt ':', .ws0, .copt '$', .ws0, .num]

/-- `r'charged\s*:?\s*\$?\s*([\d,]+\.?\d*)'` -/
def pat_charged : List Tok :=
  [.lit (str "charged"), .ws0, .copt ':', .ws0, .copt '$', .ws0, .num]

/-- `r'paid\s*\$?\s*([\d,]+\.?\d*)'` -/
def pat_paid : List Tok :=
  [.lit (str "paid"), .ws0, .copt '$', .ws0, .num]

/-- `r'total\s*(?:amount|due)?\s*:?\s*\$?\s*([\d,]+\.?\d*)'` -/
def pat_total_amount_due : List Tok :=
  [.lit (str "total"), .ws0, .optAlt [str "amount", str "due"], .ws0, .copt ':', .ws0,
   .copt '$', .ws0, .num]

/-- `r'invoice\s+total\s*:?\s*\$?\s*([\d,]+\.?\d*)'` -/
def pat_invoice_total : List Tok :=
  [.lit (str "invoice"), .ws1, .lit (str "total"), .ws0, .copt ':', .ws0, .copt '$', .ws0, .num]

/-- `r'total\s*:?\s*\$?\s*([\d,]+\.?\d*)'` -/
def pat_generic_total : List Tok :=
  [.lit (str "total"), .ws0, .copt ':', .ws0, .copt '$', .ws0, .num]

/-- `r'\$\s*([\d,]+\.?\d*)\s*(?:total|paid|due)'` -/
def pat_dollar_then_word : List Tok :=
  [.lit (str "$"), .ws0, .num, .ws0, .alt [str "total", str "paid", str "due"]]

/-- `self.patterns['total_amount']`, in source order (worker.py lines 48-62). -/
def total_amount_patterns : List (List Tok) :=
  [pat_order_total_colon, pat_order_total_space, pat_grand_total, pat_amount_due,
   pat_balance_due, pat_charged, pat_paid, pat_total_amount_due, pat_invoice_total,
   pat_generic_total, pat_dollar_then_word]

/-- One regex match: the whole matched text (group 0) and the captured group. -/
structure RMatch where
  matched : Str
  group : Str
  deriving Repr, DecidableEq

/-- `re.finditer` scanning: try the pattern at each position left to right and
continue after the end of each (non-overlapping) match.  Every pattern starts
with a non-empty literal, so a match always consumes at least one character and
the fuel `length + 1` is sufficient. -/
def findAllAux (pat : List Tok) : Nat → Str → List RMatch
  | 0 => fun _ => []
  | fuel + 1 => fun s =>
      match runToks pat { consumed := [], group := [], rest := s } with
      | some st =>
          if st.consumed.isEmpty then []
          else { matched := st.consumed, group := st.group } :: findAllAux pat fuel st.rest
      | none =>
          match s with
          | [] => []
          | _ :: t => findAllAux pat fuel t

/-- All matches of a pattern in a text. -/
def findAll (pat : List Tok) (s : Str) : List RMatch := findAllAux pat (s.length + 1) s

/-!
### Priority assignment, value parsing and winner selection
(worker.py `extract_field`, lines 209-260)
-/

/-- Priority tier from the matched text (worker.py lines 218-230):
`match_text = match.group(0).lower()`, then a chain of substring tests. -/
def priorityOf (matchText : Str) : Nat :=
  let m := lowerStr matchText
  if isSubstr (str "order total") m then 100
  else if isSubstr (str "grand total") m then 90
  else if isSubstr (str "amount due") m || isSubstr (str "balance due") m then 85
  else if isSubstr (str "charged") m then 80
  else if isSubstr (str "subtotal") m then 30
  else 50

/-- Value of a list of decimal digits. -/
def digitsVal (ds : Str) : Nat := ds.foldl (fun a c => 10 * a + (c.toNat - 48)) 0

/-- Exact decimal numeral `intp.fracp` with `fracLen` fractional digits — the
value of the Python float produced by `float(value_clean)` (the small decimal
literals appearing on invoices are exactly representable as doubles, so the
exact rational `Dec.toRat` is a faithful model of the float). -/
structure Dec where
  intp : Nat
  fracp : Nat
  fracLen : Nat
  deriving Repr, DecidableEq

/-- The rational value of a decimal numeral. -/
def Dec.toRat (d : Dec) : ℚ := d.intp + d.fracp / 10 ^ d.fracLen

/-- Python `float(s)` on the strings the numeric group can produce after comma
removal: `digit* ('.' digit*)?`, where `float` raises (here: `none`) on the
empty string and on a bare dot. -/
def parseFloat (s : Str) : Option Dec :=
  let intPart := s.takeWhile isDigitChar
  let rest := s.dropWhile isDigitChar
  match rest with
  | [] => if intPart.isEmpty then none else some ⟨digitsVal intPart, 0, 0⟩
  | '.' :: frac =>
      if frac.all isDigitChar then
        if intPart.isEmpty && frac.isEmpty then none
        else some ⟨digitsVal intPart, digitsVal frac, frac.length⟩
      else none
  | _ => none

/-- One entry of the `all_matches` list built by `extract_field` for
`total_amount` (value parsed, priority computed; the regex match object is
represented by its matched text; the stored pattern is claim-irrelevant and
omitted). -/
structure Cand where
  value : Dec
  priority : Nat
  matched : Str
  deriving Repr, DecidableEq

/-- Candidates contributed by one pattern: `value.replace(',', '')` then
`float(...)`; unparsable values are skipped (`except: continue`). -/
def candsOfPattern (text : Str) (pat : List Tok) : List Cand :=
  (findAll pat text).filterMap (fun m =>
    match parseFloat (m.group.filter (fun c => c ≠ ',')) with
    | some v => some { value := v, priority := priorityOf m.matched, matched := m.matched }
    | none => none)

/-- The full `all_matches` list, over every pattern in order. -/
def all_matches (text : Str) : List Cand :=
  (total_amount_patterns.map (candsOfPattern text)).flatten

/-- Python `max(all_matches, key = priority)`: the first candidate of maximal
priority (`max` keeps the earliest maximum). -/
def pickBest : List Cand → Option Cand
  | [] => none
  | c :: cs => some (cs.foldl (fun b x => if x.priority > b.priority then x else b) c)

/-- The field dict returned by `extract_field` for `total_amount`
(worker.py lines 249-259).  Provenance snippet/pattern are omitted: no claim
refers to them; the priority recorded in the provenance is kept. -/
structure FieldOut where
  value : Dec
  confidence : ℚ
  priority : Nat

/-- `extract_field('total_amount', text)`: collect all matches of all patterns,
return the highest-priority one with confidence 0.95 (= 19/20) when its
priority is ≥ 80 and 0.85 (= 17/20) otherwise. -/
def extract_field_total_amount (text : Str) : Option FieldOut :=
  (pickBest (all_matches text)).map (fun b =>
    { value := b.value
      confidence := if b.priority ≥ 80 then (95 : ℚ) / 100 else (85 : ℚ) / 100
      priority := b.priority })

/-!
### The character set of a `total_amount` match

No pattern literal contains the letter `s`, and the non-literal components
consume only whitespace, digits, commas, dots, colons and dollar signs.  Hence
the lower-cased text of a `total_amount` match can never contain the letter
`s`, and in particular never the substring "subtotal": the explicit
`priority = 30` demotion branch of `extract_field` is unreachable.
-/

/-- Literal word free of the letter `s`. -/
def litNoS (w : Str) : Bool := !(w.contains 's')

/-- All text a component can consume lower-cases to something other than `s`. -/
def tokNoS : Tok → Bool
  | .lit w => litNoS w
  | .ws1 => true
  | .ws0 => true
  | .copt c => !(asciiLower c = 's')
  | .num => true
  | .alt ws => ws.all litNoS
  | .optAlt ws => ws.all litNoS

theorem consumeLit_mem (w : Str) : ∀ s c1 r, consumeLit w s = some (c1, r) →
    ∀ c ∈ c1, asciiLower c ∈ w := by
  induction w with
  | nil =>
      intro s c1 r h c hc
      simp [consumeLit] at h
      rcases h with ⟨h1, _⟩
      subst h1
      simp at hc
  | cons p ps ih =>
      intro s c1 r h c hc
      cases s with
      | nil => simp [consumeLit] at h
      | cons a as =>
          simp only [consumeLit] at h
          by_cases hal : asciiLower a = p
          · rw [if_pos hal] at h
            cases h' : consumeLit ps as with
            | none => rw [h'] at h; simp at h
            | some r' =>
                rw [h'] at h
                simp only [Option.map_some', Option.some.injEq, Prod.mk.injEq] at h
                rcases h with ⟨h1, _⟩
                subst h1
                rcases List.mem_cons.mp hc with rfl | hm
                · rw [hal]; exact List.mem_cons_self _ _
                · exact List.mem_cons_of_mem _ (ih as r'.1 r'.2 (by rw [h']) c hm)
          · rw [if_neg hal] at h
            simp at h

theorem firstLit_mem (ws : List Str) : ∀ s c1 r, firstLit ws s = some (c1, r) →
    ∃ w ∈ ws, ∀ c ∈ c1, asciiLower c ∈ w := by
  induction ws with
  | nil => intro s c1 r h; simp [firstLit] at h
  | cons w rest ih =>
      intro s c1 r h
      simp only [firstLit] at h
      cases h' : consumeLit w s with
      | none =>
          rw [h'] at h
          rcases ih s c1 r h with ⟨w', hw', hmem⟩
          exact ⟨w', List.mem_cons_of_mem _ hw', hmem⟩
      | some p =>
          rw [h'] at h
          injection h with h2
          refine ⟨w, List.mem_cons_self _ _, ?_⟩
          subst h2
          exact consumeLit_mem w s c1 r h'

theorem isSpaceChar_lower_ne_s (c : Char) (h : isSpaceChar c = true) : asciiLower c ≠ 's' := by
  simp [isSpaceChar, spaceChars] at h
  rcases h with rfl | rfl | rfl | rfl | rfl | rfl <;> decide

theorem isDigitChar_lower_ne_s (c : Char) (h : isDigitChar c = true) : asciiLower c ≠ 's' := by
  simp [isDigitChar, digitChars] at h
  rcases h with rfl | rfl | rfl | rfl | rfl | rfl | rfl | rfl | rfl | rfl <;> decide

theorem isDigitComma_lower_ne_s (c : Char) (h : isDigitComma c = true) : asciiLower c ≠ 's' := by
  simp only [isDigitComma, Bool.or_eq_true, decide_eq_true_eq] at h
  rcases h with h | rfl
  · exact isDigitChar_lower_ne_s c h
  · decide

theorem litNoS_lower_ne_s (w : Str) (hw : litNoS w = true) (c : Char)
    (hc : asciiLower c ∈ w) : asciiLower c ≠ 's' := by
  intro he
  rw [he] at hc
  simp [litNoS] at hw
  exact hw hc

theorem dotSplit_fst (r : Str) : (dotSplit r).1 = [] ∨ (dotSplit r).1 = ['.'] := by
  unfold dotSplit
  split
  · exact Or.inr rfl
  · exact Or.inl rfl

theorem runTok_noS (t : Tok) (ht : tokNoS t = true) (st st' : MState)
    (h : runTok t st = some st') :
    ∀ c ∈ st'.consumed, c ∈ st.consumed ∨ asciiLower c ≠ 's' := by
  intro c hc
  cases t with
  | lit w =>
      simp only [runTok] at h
      cases h' : consumeLit w st.rest with
      | none => rw [h'] at h; simp at h
      | some r =>
          rw [h'] at h
          cases h
          simp only [List.mem_append] at hc
          rcases hc with hc | hc
      -- goal split resolved below
          · exact Or.inl hc
          · exact Or.inr (litNoS_lower_ne_s w ht c (consumeLit_mem w st.rest r.1 r.2 (by rw [h']) c hc))
  | ws1 =>
      simp only [runTok] at h
      by_cases he : (st.rest.takeWhile isSpaceChar).isEmpty
      · rw [if_pos he] at h; simp at h
      · rw [if_neg he] at h
        cases h
        simp only [List.mem_append] at hc
        rcases hc with hc | hc
        · exact Or.inl hc
        · exact Or.inr (isSpaceChar_lower_ne_s c (List.mem_takeWhile_imp hc))
  | ws0 =>
      simp only [runTok] at h
      cases h
      simp only [List.mem_append] at hc
      rcases hc with hc | hc
      · exact Or.inl hc
      · exact Or.inr (isSpaceChar_lower_ne_s c (List.mem_takeWhile_imp hc))
  | copt c0 =>
      simp only [runTok] at h
      split at h
      · split at h
        · cases h
          simp only [List.mem_append, List.mem_singleton] at hc
          rcases hc with hc | rfl
          · exact Or.inl hc
          · simp only [tokNoS, Bool.not_eq_true', decide_eq_false_iff_not] at ht
            exact Or.inr ht
        · cases h
          exact Or.inl hc
      · cases h
        exact Or.inl hc
  | num =>
      simp only [runTok] at h
      by_cases he : (st.rest.takeWhile isDigitComma).isEmpty
      · rw [if_pos he] at h; simp at h
      · rw [if_neg he] at h
        cases h
        rcases List.mem_append.mp hc with hc | hc
        · exact Or.inl hc
        · rcases List.mem_append.mp hc with hc | hc
          · rcases List.mem_append.mp hc with hc | hc
            · exact Or.inr (isDigitComma_lower_ne_s c (List.mem_takeWhile_imp hc))
            · rcases dotSplit_fst (st.rest.dropWhile isDigitComma) with hd | hd <;> rw [hd] at hc
              · simp at hc
              · simp only [List.mem_singleton] at hc
                subst hc
                exact Or.inr (by decide)
          · exact Or.inr (isDigitChar_lower_ne_s c (List.mem_takeWhile_imp hc))
  | alt ws =>
      simp only [runTok] at h
      cases h' : firstLit ws st.rest with
      | none => rw [h'] at h; simp at h
      | some r =>
          rw [h'] at h
          cases h
          simp only [List.mem_append] at hc
          rcases hc with hc | hc
          · exact Or.inl hc
          · rcases firstLit_mem ws st.rest r.1 r.2 (by rw [h']) with ⟨w, hw, hmem⟩
            have hwns : litNoS w = true := by
              simp only [tokNoS, List.all_eq_true] at ht
              exact ht w hw
            exact Or.inr (litNoS_lower_ne_s w hwns c (hmem c hc))
  | optAlt ws =>
      simp only [runTok] at h
      cases h' : firstLit ws st.rest with
      | none => rw [h'] at h; cases h; exact Or.inl hc
      | some r =>
          rw [h'] at h
          cases h
          simp only [List.mem_append] at hc
          rcases hc with hc | hc
          · exact Or.inl hc
          · rcases firstLit_mem ws st.rest r.1 r.2 (by rw [h']) with ⟨w, hw, hmem⟩
            have hwns : litNoS w = true := by
              simp only [tokNoS, List.all_eq_true] at ht
              exact ht w hw
            exact Or.inr (litNoS_lower_ne_s w hwns c (hmem c hc))

theorem runToks_noS : ∀ (ts : List Tok) (st st' : MState),
    (∀ t ∈ ts, tokNoS t = true) → runToks ts st = some st' →
    ∀ c ∈ st'.consumed, c ∈ st.consumed ∨ asciiLower c ≠ 's' := by
  intro ts
  induction ts with
  | nil =>
      intro st st' _ h c hc
      simp only [runToks] at h
      cases h
      exact Or.inl hc
  | cons t ts ih =>
      intro st st' hts h c hc
      simp only [runToks] at h
      cases h1 : runTok t st with
      | none => rw [h1] at h; simp at h
      | some st1 =>
          rw [h1] at h
          rcases ih st1 st' (fun t' ht' => hts t' (List.mem_cons_of_mem _ ht')) h c hc with
            hm | hne
          · exact runTok_noS t (hts t (List.mem_cons_self _ _)) st st1 h1 c hm
          · exact Or.inr hne

theorem findAllAux_succ_some (pat : List Tok) (fuel : Nat) (s : Str) (st : MState)
    (h : runToks pat { consumed := [], group := [], rest := s } = some st) :
    findAllAux pat (fuel + 1) s =
      if st.consumed.isEmpty then []
      else { matched := st.consumed, group := st.group } :: findAllAux pat fuel st.rest := by
  simp only [findAllAux, h]

theorem findAllAux_succ_none_nil (pat : List Tok) (fuel : Nat)
    (h : runToks pat { consumed := [], group := [], rest := [] } = none) :
    findAllAux pat (fuel + 1) [] = [] := by
  simp only [findAllAux, h]

theorem findAllAux_succ_none_cons (pat : List Tok) (fuel : Nat) (a : Char) (t : Str)
    (h : runToks pat { consumed := [], group := [], rest := a :: t } = none) :
    findAllAux pat (fuel + 1) (a :: t) = findAllAux pat fuel t := by
  simp only [findAllAux, h]

theorem findAllAux_matched_noS (pat : List Tok) (hpat : ∀ t ∈ pat, tokNoS t = true) :
    ∀ (fuel : Nat) (s : Str) (m : RMatch), m ∈ findAllAux pat fuel s →
    ∀ c ∈ m.matched, asciiLower c ≠ 's' := by
  intro fuel
  induction fuel with
  | zero => intro s m hm; simp [findAllAux] at hm
  | succ fuel ih =>
      intro s m hm c hc
      cases h1 : runToks pat { consumed := [], group := [], rest := s } with
      | some st =>
          rw [findAllAux_succ_some pat fuel s st h1] at hm
          by_cases he : st.consumed.isEmpty
          · rw [if_pos he] at hm; simp at hm
          · rw [if_neg he] at hm
            rcases List.mem_cons.mp hm with rfl | hm'
            · rcases runToks_noS pat { consumed := [], group := [], rest := s } st hpat h1 c hc
                with hm0 | hne
              · simp at hm0
              · exact hne
            · exact ih st.rest m hm' c hc
      | none =>
          cases s with
          | nil => rw [findAllAux_succ_none_nil pat fuel h1] at hm; simp at hm
          | cons a t =>
              rw [findAllAux_succ_none_cons pat fuel a t h1] at hm
              exact ih t m hm c hc

/-- Every match of every `total_amount` pattern has an `s`-free matched text. -/
theorem findAll_matched_noS (pat : List Tok) (hpat : ∀ t ∈ pat, tokNoS t = true)
    (s : Str) (m : RMatch) (hm : m ∈ findAll pat s) :
    ∀ c ∈ m.matched, asciiLower c ≠ 's' :=
  findAllAux_matched_noS pat hpat (s.length + 1) s m hm

theorem hasPref_mem : ∀ (needle hay : Str), hasPref needle hay = true →
    ∀ c ∈ needle, c ∈ hay := by
  intro needle
  induction needle with
  | nil => intro hay _ c hc; simp at hc
  | cons a as ih =>
      intro hay h c hc
      cases hay with
      | nil => simp [hasPref] at h
      | cons b bs =>
          simp only [hasPref, Bool.and_eq_true, decide_eq_true_eq] at h
          rcases List.mem_cons.mp hc with rfl | hm
          · rw [h.1]; exact List.mem_cons_self _ _
          · exact List.mem_cons_of_mem _ (ih bs h.2 c hm)

theorem isSubstr_eq_false (needle : Str) (hs : 's' ∈ needle) :
    ∀ hay, (∀ c ∈ hay, c ≠ 's') → isSubstr needle hay = false := by
  intro hay
  induction hay with
  | nil =>
      intro _
      have : needle ≠ [] := by intro h; rw [h] at hs; simp at hs
      simpa [isSubstr, List.isEmpty_iff]
  | cons b bs ih =>
      intro hall
      simp only [isSubstr, Bool.or_eq_false_iff]
      constructor
      · by_contra hp
        rw [Bool.not_eq_false] at hp
        exact hall 's' (hasPref_mem needle (b :: bs) hp 's' hs) rfl
      · exact ih (fun c hc => hall c (List.mem_cons_of_mem _ hc))

theorem priorityOf_ne_30 (mt : Str) (h : ∀ c ∈ mt, asciiLower c ≠ 's') :
    priorityOf mt ≠ 30 := by
  have hlow : ∀ c ∈ lowerStr mt, c ≠ 's' := by
    intro c hc
    rcases List.mem_map.mp hc with ⟨a, ha, rfl⟩
    exact h a ha
  have hsub : isSubstr (str "subtotal") (lowerStr mt) = false :=
    isSubstr_eq_false _ (by decide) _ hlow
  simp only [priorityOf, hsub]
  split
  · decide
  split
  · decide
  split
  · decide
  split
  · decide
  · simp

theorem tokNoS_total_patterns : ∀ pat ∈ total_amount_patterns, ∀ t ∈ pat, tokNoS t = true := by
  decide

/-- No candidate collected by `extract_field('total_amount', ...)`, on any
input text, is ever assigned priority 30. -/
theorem all_matches_priority_ne_30 (t : Str) (c : Cand) (hc : c ∈ all_matches t) :
    c.priority ≠ 30 := by
  simp only [all_matches, List.mem_flatten, List.mem_map] at hc
  rcases hc with ⟨l, ⟨pat, hpat, rfl⟩, hcl⟩
  simp only [candsOfPattern, List.mem_filterMap] at hcl
  rcases hcl with ⟨m, hm, hparse⟩
  cases hp : parseFloat (m.group.filter (fun c => c ≠ ',')) with
  | none => rw [hp] at hparse; simp at hparse
  | some v =>
      rw [hp] at hparse
      simp only [Option.some.injEq] at hparse
      have : c.priority = priorityOf m.matched := by rw [← hparse]
      rw [this]
      exact priorityOf_ne_30 m.matched
        (findAll_matched_noS pat (tokNoS_total_patterns pat hpat) t m hm)

/-!
### Claims C1 and C2
-/

/-- Unfolding `extract_field_total_amount` at a computed winner. -/
theorem extract_total_eq (t : Str) (c : Cand)
    (h : pickBest (all_matches t) = some c) :
    extract_field_total_amount t =
      some { value := c.value,
             confidence := if c.priority ≥ 80 then (95 : ℚ)/100 else (85 : ℚ)/100,
             priority := c.priority } := by
  simp [extract_field_total_amount, h]

/-- Text containing the lines "Subtotal: $100.00" and "Order Total: $120.00"
(in that order, among others) on which extraction does not return 120.00. -/
def tC1 : Str := str "Order Total: $999.00\nSubtotal: $100.00\nOrder Total: $120.00"

/-- C1 (counterexample): a document text that contains both the line
"Subtotal: $100.00" and the line "Order Total: $120.00", yet `total_amount`
extraction returns 999.00 (an exact decimal with rational value 999 ≠ 120):
an earlier "Order Total" line also has priority 100 and Python's `max` keeps
the first maximum.  Hence the claim's universal statement over every text
containing the two lines is false. -/
theorem C1_counterexample :
    (str "Subtotal: $100.00") ∈ splitLines tC1 ∧
    (str "Order Total: $120.00") ∈ splitLines tC1 ∧
    (extract_field_total_amount tC1).map FieldOut.value = some ⟨999, 0, 2⟩ ∧
    (Dec.mk 999 0 2).toRat = 999 ∧ (999 : ℚ) ≠ 120 := by
  refine ⟨by decide, by decide, by decide, by norm_num [Dec.toRat], by norm_num⟩

/-- C1 (amended): for the two texts consisting of exactly the lines
"Subtotal: $100.00" and "Order Total: $120.00", in either order, `total_amount`
extraction returns value 120.00 (exact rational value 120) with priority 100
and confidence 0.95 = 19/20 ≥ 0.9 (the "order total" match has priority 100 and
priority ≥ 80 yields confidence 0.95). -/
theorem C1_amended_order_total_priority :
    extract_field_total_amount (str "Subtotal: $100.00\nOrder Total: $120.00") =
      some { value := ⟨120, 0, 2⟩, confidence := 19/20, priority := 100 } ∧
    extract_field_total_amount (str "Order Total: $120.00\nSubtotal: $100.00") =
      some { value := ⟨120, 0, 2⟩, confidence := 19/20, priority := 100 } ∧
    (Dec.mk 120 0 2).toRat = 120 ∧ ((19 : ℚ)/20 ≥ 9/10) := by
  refine ⟨?_, ?_, by norm_num [Dec.toRat], by norm_num⟩
  · rw [extract_total_eq _ ⟨⟨120, 0, 2⟩, 100, str "Order Total: $120.00"⟩ (by decide)]
    norm_num
  · rw [extract_total_eq _ ⟨⟨120, 0, 2⟩, 100, str "Order Total: $120.00"⟩ (by decide)]
    norm_num

/-- C2 (counterexample): no input whatsoever produces a candidate of priority
30.  The priority-30 branch requires the matched text to contain "subtotal",
but every `total_amount` pattern's match consists of the literals
order/grand/total/amount/due/balance/charged/paid/invoice plus whitespace,
digits, commas, dots, colons and dollar signs — its lower-casing never contains
the letter `s`.  In particular, no input containing "Subtotal: $100.00" yields
a priority-30 candidate from that line, refuting the claim's "in particular"
part. -/
theorem C2_counterexample :
    ¬ ∃ (t : Str) (c : Cand), c ∈ all_matches t ∧ c.priority = 30 := by
  rintro ⟨t, c, hc, h30⟩
  exact all_matches_priority_ne_30 t c hc h30

/-- C2 (amended): the priority tiers are computed from the matched text as
order total → 100, grand total → 90, amount due / balance due → 85,
charged → 80, subtotal → 30 (unreachable), otherwise 50; the winner is the
highest-priority match, with confidence 0.95 = 19/20 when priority ≥ 80 and
0.85 = 17/20 otherwise.  The candidate produced from a "Subtotal: $100.00"
line matches only as "total: $100.00" and is assigned priority 50 (not 30). -/
theorem C2_amended_priority_tiers :
    (all_matches (str "Subtotal: $100.00")).map Cand.priority = [50, 50] ∧
    extract_field_total_amount (str "Subtotal: $100.00") =
      some { value := ⟨100, 0, 2⟩, confidence := 17/20, priority := 50 } ∧
    (extract_field_total_amount (str "Order Total: $5.00")).map FieldOut.priority = some 100 ∧
    (extract_field_total_amount (str "Grand Total: $5.00")).map FieldOut.priority = some 90 ∧
    (extract_field_total_amount (str "Amount Due: $5.00")).map FieldOut.priority = some 85 ∧
    (extract_field_total_amount (str "Balance Due: $5.00")).map FieldOut.priority = some 85 ∧
    (extract_field_total_amount (str "Charged: $5.00")).map FieldOut.priority = some 80 ∧
    extract_field_total_amount (str "Charged: $5.00") =
      some { value := ⟨5, 0, 2⟩, confidence := 19/20, priority := 80 } ∧
    (extract_field_total_amount (str "Total: $5.00")).map FieldOut.priority = some 50 ∧
    extract_field_total_amount (str "Total: $5.00") =
      some { value := ⟨5, 0, 2⟩, confidence := 17/20, priority := 50 } := by
  refine ⟨by decide, ?_, by decide, by decide, by decide, by decide, by decide, ?_,
    by decide, ?_⟩
  · rw [extract_total_eq _ ⟨⟨100, 0, 2⟩, 50, str "total: $100.00"⟩ (by decide)]
    norm_num
  · rw [extract_total_eq _ ⟨⟨5, 0, 2⟩, 80, str "Charged: $5.00"⟩ (by decide)]
    norm_num
  · rw [extract_total_eq _ ⟨⟨5, 0, 2⟩, 50, str "Total: $5.00"⟩ (by decide)]
    norm_num

/-!
### Vendor-name extraction (`_extract_vendor_from_text`, worker.py lines 345-430)

The skip regexes are applied with `re.IGNORECASE` (worker.py line 380).  In
particular the skip pattern `r'^[a-z]'` matches, under IGNORECASE, every line
whose first character is ANY ASCII letter — uppercase included — although the
code comment says "Skip lines starting with lowercase".  All four vendor
patterns require an uppercase first letter (`^[A-Z]`, matched without
IGNORECASE), so no line can both survive the skip list and match a pattern.
-/

/-- The uppercase ASCII letters. -/
def upperChars : Str := str "ABCDEFGHIJKLMNOPQRSTUVWXYZ"

/-- Is `c` an uppercase ASCII letter? -/
def isUpperChar (c : Char) : Bool := upperChars.contains c

/-- The lowercase ASCII letters. -/
def lowerChars : Str := str "abcdefghijklmnopqrstuvwxyz"

/-- Is `c` a lowercase ASCII letter? -/
def isLowerChar (c : Char) : Bool := lowerChars.contains c

/-- Is `c` an ASCII letter?  This is what the pattern `[a-z]` matches under
`re.IGNORECASE`. -/
def isAlphaChar (c : Char) : Bool := isUpperChar c || isLowerChar c

/-- `skip_phrases` (worker.py lines 360-364). -/
def skip_phrases : List Str :=
  [str "good afternoon", str "good morning", str "good evening",
   str "thank you for", str "please find", str "attached is",
   str "hi ", str "hello ", str "dear ", str "greetings"]

/-- Case-insensitive prefix test (an anchored `re.match` of a literal under
IGNORECASE). -/
def startsWithCI (w : Str) (s : Str) : Bool := (consumeLit w s).isSome

/-- Alternatives of the first skip pattern
`r'^(good|hello|hi|dear|greetings|thank you|thanks|please find|attached)'`. -/
def skip_pattern_words1 : List Str :=
  [str "good", str "hello", str "hi", str "dear", str "greetings", str "thank you",
   str "thanks", str "please find", str "attached"]

/-- Alternatives of `r'^(from|to|subject|date|sent|received)'`. -/
def skip_pattern_words2 : List Str :=
  [str "from", str "to", str "subject", str "date", str "sent", str "received"]

/-- `r'^(hi|hello)\s+[a-z]'` under IGNORECASE. -/
def skipPattern4 (s : Str) : Bool :=
  match firstLit [str "hi", str "hello"] s with
  | some r =>
      !(r.2.takeWhile isSpaceChar).isEmpty &&
      (match r.2.dropWhile isSpaceChar with
       | c :: _ => isAlphaChar c
       | [] => false)
  | none => false

/-- The `for skip_pattern in skip_patterns: if re.match(skip_pattern,
line_clean, re.IGNORECASE)` loop (worker.py lines 352-357, 378-384).  The third
pattern `r'^[a-z]'` matches any leading ASCII letter because of IGNORECASE. -/
def matches_skip_patterns (lc : Str) : Bool :=
  skip_pattern_words1.any (fun w => startsWithCI w lc) ||
  skip_pattern_words2.any (fun w => startsWithCI w lc) ||
  (match lc with
   | c :: _ => isAlphaChar c
   | [] => false) ||
  skipPattern4 lc

/-- `':' in line_clean[:15] and not any(keyword in line_clean.lower() for
keyword in ['customer', 'receipt', 'invoice', 'order'])` (worker.py line 391). -/
def colonMetadata (lc : Str) : Bool :=
  (lc.take 15).contains ':' &&
  !(isSubstr (str "customer") (lowerStr lc) || isSubstr (str "receipt") (lowerStr lc) ||
    isSubstr (str "invoice") (lowerStr lc) || isSubstr (str "order") (lowerStr lc))

/-- The character class `[A-Z\s&.,]`. -/
def isVClassUpper (c : Char) : Bool :=
  isUpperChar c || isSpaceChar c || c = '&' || c = '.' || c = ','

/-- The character class `[A-Za-z\s&.,]`. -/
def isVClassMixed (c : Char) : Bool :=
  isAlphaChar c || isSpaceChar c || c = '&' || c = '.' || c = ','

/-- Descending list `[hi, hi-1, ..., lo]` (empty when `hi < lo`): the order in
which a greedy bounded repetition is backtracked. -/
def downTo (hi lo : Nat) : List Nat := (List.range' lo (hi + 1 - lo)).reverse

/-- First alternative (in regex order) that is a case-sensitive prefix of `s`. -/
def firstLitCS (ws : List Str) (s : Str) : Option Str :=
  ws.findSome? (fun w => if hasPref w s then some w else none)

/-- Matcher for `^([A-Z]<cls>{5,50}(?:suf1|suf2|...))`: greedy repetition
backtracked from the longest run, alternatives tried in regex order; returns
group 1. -/
def classThenSuffix (cls : Char → Bool) (suffixes : List Str) (lc : Str) : Option Str :=
  match lc with
  | [] => none
  | c :: rest =>
      if isUpperChar c then
        (downTo (min 50 (rest.takeWhile cls).length) 5).findSome? (fun k =>
          (firstLitCS suffixes (rest.drop k)).map (fun w => c :: rest.take k ++ w))
      else none

/-- Pattern 1 (worker.py line 398):
`r'^([A-Z][A-Z\s&.,]{5,50}(?:DEPOT|RECON|CONSTRUCTION|RECYCLING|SUPPLIES|SERVICES|STORE|LLC|INC|CORP))'`. -/
def vendor_pattern1 (lc : Str) : Option Str :=
  classThenSuffix isVClassUpper
    [str "DEPOT", str "RECON", str "CONSTRUCTION", str "RECYCLING", str "SUPPLIES",
     str "SERVICES", str "STORE", str "LLC", str "INC", str "CORP"] lc

/-- Pattern 2 (worker.py line 402):
`r'^([A-Z][A-Za-z\s&.,]{5,50}(?:Pvt|Ltd|Inc|LLC|Corp|Corporation|Company))'`. -/
def vendor_pattern2 (lc : Str) : Option Str :=
  classThenSuffix isVClassMixed
    [str "Pvt", str "Ltd", str "Inc", str "LLC", str "Corp", str "Corporation",
     str "Company"] lc

/-- Pattern 3 (worker.py line 406):
`r'^([A-Z][A-Za-z\s&.,]{5,50})\s*(?:Customer|Receipt|Invoice)'`; the group
stops before the whitespace and marker word. -/
def vendor_pattern3 (lc : Str) : Option Str :=
  match lc with
  | [] => none
  | c :: rest =>
      if isUpperChar c then
        (downTo (min 50 (rest.takeWhile isVClassMixed).length) 5).findSome? (fun k =>
          (downTo ((rest.drop k).takeWhile isSpaceChar).length 0).findSome? (fun j =>
            if (firstLitCS [str "Customer", str "Receipt", str "Invoice"]
                  ((rest.drop k).drop j)).isSome
            then some (c :: rest.take k) else none))
      else none

/-- Python `str.split()` — split on whitespace runs, dropping empty pieces. -/
def pysplitAux : Str → Str → List Str
  | [], acc => if acc.isEmpty then [] else [acc.reverse]
  | c :: rest, acc =>
      if isSpaceChar c then
        if acc.isEmpty then pysplitAux rest []
        else acc.reverse :: pysplitAux rest []
      else pysplitAux rest (c :: acc)

/-- Python `str.split()`. -/
def pysplit (s : Str) : List Str := pysplitAux s []

/-- Python `str.isupper()` on ASCII: at least one cased character, none of them
lowercase. -/
def pyIsUpper (w : Str) : Bool := (!w.any isLowerChar) && w.any isUpperChar

/-- Pattern 4 (worker.py lines 409-415): the standalone-company heuristic —
at least 2 words, line length ≥ 5, at least 2 of the first 3 words fully
uppercase and longer than one character, then `re.match(r'^([A-Z][A-Z\s&.,]{5,50})')`. -/
def vendor_pattern4 (lc : Str) : Option Str :=
  let words := pysplit lc
  if words.length ≥ 2 && lc.length ≥ 5 then
    if ((words.take 3).filter (fun w => pyIsUpper w && w.length > 1)).length ≥ 2 then
      match lc with
      | [] => none
      | c :: rest =>
          if isUpperChar c then
            let k := min 50 (rest.takeWhile isVClassUpper).length
            if k ≥ 5 then some (c :: rest.take k) else none
          else none
    else none
  else none

/-- `re.sub(r'^(THE|A|AN)\s+', '', vendor_name, flags=re.IGNORECASE)`: try the
alternatives in order, each must be followed by at least one whitespace
character, which is stripped greedily along with the article. -/
def tryArticle (w : Str) (s : Str) : Option Str :=
  match consumeLit w s with
  | some r =>
      if (r.2.takeWhile isSpaceChar).isEmpty then none
      else some (r.2.dropWhile isSpaceChar)
  | none => none

/-- Strip a leading THE/A/AN article (worker.py line 420). -/
def stripArticle (s : Str) : Str :=
  match [str "the", str "a", str "an"].findSome? (fun w => tryArticle w s) with
  | some rest => rest
  | none => s

/-- `re.match(r'^(good|hello|hi|dear)', vendor_name, re.IGNORECASE)`. -/
def greetingStart (s : Str) : Bool :=
  [str "good", str "hello", str "hi", str "dear"].any (fun w => startsWithCI w s)

/-- The vendor field dict (value, confidence 0.90, provenance omitted). -/
structure VendorField where
  value : Str
  confidence : ℚ

/-- The body of the `for line in lines[:30]` loop of
`_extract_vendor_from_text` for a single line; `none` means `continue`. -/
def vendorFromLine (line : Str) : Option VendorField :=
  let lc := pystrip line
  if lc.isEmpty then none
  else if skip_phrases.any (fun p => isSubstr p (lowerStr lc)) then none
  else if matches_skip_patterns lc then none
  else if lc.length < 3 then none
  else if colonMetadata lc then none
  else
    let m1 := vendor_pattern1 lc
    let m2 := match m1 with | some g => some g | none => vendor_pattern2 lc
    let m3 := match m2 with | some g => some g | none => vendor_pattern3 lc
    let m4 := match m3 with | some g => some g | none => vendor_pattern4 lc
    match m4 with
    | none => none
    | some g =>
        let vn := stripArticle (pystrip g)
        if vn.length ≥ 3 && !(greetingStart vn) then
          some { value := vn, confidence := (9 : ℚ)/10 }
        else none

/-- First line that yields a vendor. -/
def vendorScan : List Str → Option VendorField
  | [] => none
  | l :: rest =>
      match vendorFromLine l with
      | some v => some v
      | none => vendorScan rest

/-- `_extract_vendor_from_text` (worker.py lines 345-430). -/
def extract_vendor_from_text (t : Str) : Option VendorField :=
  vendorScan ((splitLines t).take 30)

theorem classThenSuffix_not_upper (cls : Char → Bool) (suffixes : List Str)
    (c : Char) (rest : Str) (h : isUpperChar c = false) :
    classThenSuffix cls suffixes (c :: rest) = none := by
  simp [classThenSuffix, h]

theorem vendor_pattern3_not_upper (c : Char) (rest : Str) (h : isUpperChar c = false) :
    vendor_pattern3 (c :: rest) = none := by
  simp [vendor_pattern3, h]

theorem vendor_pattern4_not_upper (c : Char) (rest : Str) (h : isUpperChar c = false) :
    vendor_pattern4 (c :: rest) = none := by
  unfold vendor_pattern4
  split
  · simp
  · rename_i c' t' heq
    obtain ⟨rfl, rfl⟩ := (List.cons.injEq c rest c' t').mp heq
    simp [h]

/-- Every line is skipped or fails all vendor patterns: a line whose stripped
form starts with a letter is skipped by the IGNORECASE `^[a-z]` pattern, and a
line whose stripped form does not start with an uppercase letter fails every
vendor pattern (`^[A-Z]...`). -/
theorem vendorFromLine_none (line : Str) : vendorFromLine line = none := by
  unfold vendorFromLine
  cases hlc : pystrip line with
  | nil => simp
  | cons c rest =>
      by_cases halpha : isAlphaChar c = true
      · have hsp : matches_skip_patterns (c :: rest) = true := by
          simp [matches_skip_patterns, halpha]
        simp [hsp]
      · have hup : isUpperChar c = false := by
          cases hu : isUpperChar c
          · rfl
          · exact absurd (by simp [isAlphaChar, hu]) halpha
        have h1 : vendor_pattern1 (c :: rest) = none :=
          classThenSuffix_not_upper _ _ c rest hup
        have h2 : vendor_pattern2 (c :: rest) = none :=
          classThenSuffix_not_upper _ _ c rest hup
        have h3 : vendor_pattern3 (c :: rest) = none :=
          vendor_pattern3_not_upper c rest hup
        have h4 : vendor_pattern4 (c :: rest) = none :=
          vendor_pattern4_not_upper c rest hup
        simp [h1, h2, h3, h4]

theorem vendorScan_none (ls : List Str) : vendorScan ls = none := by
  induction ls with
  | nil => rfl
  | cons l rest ih => simp [vendorScan, vendorFromLine_none l, ih]

/-- C3: `_extract_vendor_from_text` returns no vendor on the claim's input —
and indeed on every input.  The skip pattern `r'^[a-z]'` is applied with
`re.IGNORECASE`, so every line whose stripped form starts with ANY ASCII letter
is skipped (the code comment says only lowercase starts should be skipped),
while all four vendor patterns require an uppercase first letter; lines
starting with a non-letter survive the skip list but fail `^[A-Z]` too.  The
claimed result "ACME SUPPLIES" is never produced. -/
theorem C3_vendor_extraction_dead :
    extract_vendor_from_text
      (str "Hi John,\n\nGood afternoon,\n\nACME SUPPLIES LLC\nInvoice...") = none ∧
    ∀ t : Str, extract_vendor_from_text t = none := by
  constructor
  · exact vendorScan_none _
  · intro t
    exact vendorScan_none _

/-!
### Reconciliation (`src/services/reconciler/worker.py`)

`rapidfuzz.fuzz.ratio(a, b)` is the normalized Indel similarity on a 0-100
scale: `200 * lcs(a, b) / (len a + len b)` (Indel distance =
`len a + len b - 2 * lcs`), returned as a double.  Scores are modelled as exact
fractions `n/d`; all threshold comparisons (`> best`, `≥ 90`, `≥ 60`) are done
by cross-multiplication, which agrees with the double comparison (the doubles
round exact fractions with denominators far too small for the rounding to
cross a threshold).
-/

/-- An exact similarity score `n / d` on the 0-100 scale (`d > 0` by
construction). -/
structure Score where
  n : Nat
  d : Nat
  deriving Repr, DecidableEq

/-- One row update of the longest-common-subsequence table: `prevTail` starts
as the previous row, `left` is the entry just computed to the left. -/
def lcsRowAux (ca : Char) : Str → List Nat → Nat → List Nat
  | [], _, _ => []
  | cb :: bs, prevTail, left =>
      match prevTail with
      | [] => []
      | pj1 :: restp =>
          let cur := if ca = cb then pj1 + 1 else max (restp.headD 0) left
          cur :: lcsRowAux ca bs restp cur

/-- Next row of the LCS table. -/
def lcsRow (b : Str) (prev : List Nat) (ca : Char) : List Nat :=
  0 :: lcsRowAux ca b prev 0

/-- Length of the longest common subsequence of `a` and `b`. -/
def lcsLen (a b : Str) : Nat :=
  (a.foldl (lcsRow b) (List.replicate (b.length + 1) 0)).getLastD 0

/-- `fuzz.ratio(a, b)` as an exact fraction; two empty strings score 100. -/
def simScore (a b : Str) : Score :=
  if a.length + b.length = 0 then ⟨100, 1⟩
  else ⟨200 * lcsLen a b, a.length + b.length⟩

/-- `score ≥ t` for a natural threshold `t`. -/
def Score.geN (s : Score) (t : Nat) : Bool := s.n ≥ t * s.d

/-- `s1 > s2` (the `score > best_score` update test). -/
def Score.gt (s1 s2 : Score) : Bool := s1.n * s2.d > s2.n * s1.d

/-- `s1 ≥ s2` (descending-sortedness of the suggestion list). -/
def Score.ge (s1 s2 : Score) : Bool := s1.n * s2.d ≥ s2.n * s1.d

/-- The rational value of a score. -/
def Score.toRat (s : Score) : ℚ := s.n / s.d

/-- A vendor as loaded by `_load_vendors`: id, canonical name and aliases;
`all_names = [canonical_name] + aliases`. -/
structure VendorRec where
  vendor_id : Nat
  canonical_name : Str
  aliases : List Str
  deriving Repr, DecidableEq

/-- `all_names` of a loaded vendor. -/
def VendorRec.all_names (v : VendorRec) : List Str := v.canonical_name :: v.aliases

/-- A project as loaded by `_load_projects`. -/
structure ProjectRec where
  project_id : Nat
  name : Str
  codes : List Str
  deriving Repr, DecidableEq

/-- `all_names` of a loaded project. -/
def ProjectRec.all_names (p : ProjectRec) : List Str := p.name :: p.codes

/-- A suggestion entry `{vendor_id/project_id, name, score}`. -/
structure Suggestion where
  sid : Nat
  name : Str
  score : Score
  deriving Repr, DecidableEq

/-- Accumulator of the match loops: best id, best score, suggestion list. -/
abbrev MatchAcc := Option Nat × Score × List Suggestion

/-- Body of the inner `for name in all_names` loop shared by `match_vendor`
and `match_project`: `score > best_score` updates the best; `score >= 60`
appends a suggestion. -/
def matchName (q : Str) (sid : Nat) (canonical : Str) (acc : MatchAcc) (nm : Str) :
    MatchAcc :=
  let sc := simScore (lowerStr q) (lowerStr nm)
  let best : Option Nat × Score :=
    if sc.gt acc.2.1 then (some sid, sc) else (acc.1, acc.2.1)
  let sugg :=
    if sc.geN 60 then acc.2.2 ++ [⟨sid, canonical, sc⟩] else acc.2.2
  (best.1, best.2, sugg)

/-- The nested `for vendor in self.vendors: for name in all_names` loop. -/
def matchFold (q : Str) (vendors : List VendorRec) : MatchAcc :=
  vendors.foldl (fun acc v =>
    v.all_names.foldl (matchName q v.vendor_id v.canonical_name) acc)
    (none, ⟨0, 1⟩, [])

/-- Same loop over projects. -/
def matchFoldP (q : Str) (projects : List ProjectRec) : MatchAcc :=
  projects.foldl (fun acc p =>
    p.all_names.foldl (matchName q p.project_id p.name) acc)
    (none, ⟨0, 1⟩, [])

/-- Insert into a descending-sorted list, after strictly greater scores: this
computes the unique stable descending order, which is what Python's
`sorted(suggestions, key=lambda x: x['score'], reverse=True)` returns. -/
def insertDesc (x : Suggestion) : List Suggestion → List Suggestion
  | [] => [x]
  | y :: ys => if y.score.gt x.score then y :: insertDesc x ys else x :: y :: ys

/-- Stable descending sort by score. -/
def sortDesc : List Suggestion → List Suggestion
  | [] => []
  | x :: xs => insertDesc x (sortDesc xs)

/-- `match_vendor` (worker.py lines 53-80): empty-name guard, strip, nested
fuzzy-match loop, then sort the suggestions descending and keep at most 3. -/
def match_vendor (vendors : List VendorRec) (vendor_name : Str) : MatchAcc :=
  if vendor_name.isEmpty then (none, ⟨0, 1⟩, [])
  else
    let r := matchFold (pystrip vendor_name) vendors
    (r.1, r.2.1, (sortDesc r.2.2).take 3)

/-- `match_project` (worker.py lines 82-108), identical in structure. -/
def match_project (projects : List ProjectRec) (project_name : Str) : MatchAcc :=
  if project_name.isEmpty then (none, ⟨0, 1⟩, [])
  else
    let r := matchFoldP (pystrip project_name) projects
    (r.1, r.2.1, (sortDesc r.2.2).take 3)

/-- Reconciliation status enum. -/
inductive RStatus where
  | needs_review
  | auto_matched
  | manual
  | ignored
  deriving Repr, DecidableEq

/-- The extracted-field values `reconcile_invoice` reads.  A field dict that is
missing, not a dict, or lacking a `value` key is modelled as `none`;
`project_name` is the value of `extracted['project_name'] or
extracted['project_code']`; `total_amount` carries the field value and the
optional `currency` key of the same field dict. -/
structure ExtractedDoc where
  vendor_name : Option Str
  project_name : Option Str
  total_amount : Option (Dec × Option Str)
  date : Option Str
  deriving Repr, DecidableEq

/-- The `normalized` keys the reconciler writes. -/
structure Normalized where
  vendor_id : Option Nat
  vendor_name : Option Str
  project_id : Option Nat
  project_name : Option Str
  total_amount : Option Dec
  currency : Option Str
  date : Option Str
  deriving Repr, DecidableEq

/-- A persisted invoice record as the reconciler sees it:
`extra['suggestions']['vendors'/'projects']` is modelled by the two suggestion
slots. -/
structure InvRecord where
  extracted : ExtractedDoc
  normalized : Normalized
  reconciliation_status : Option RStatus
  suggestions_vendors : Option (List Suggestion)
  suggestions_projects : Option (List Suggestion)
  deriving Repr, DecidableEq

/-- Mutable state of one `reconcile_invoice` run: the local `normalized` dict,
the local `reconciliation_status` variable, the two suggestion slots of
`invoice.extra`, and the `updated` flag. -/
structure RState where
  normalized : Normalized
  rs : RStatus
  sv : Option (List Suggestion)
  sp : Option (List Suggestion)
  updated : Bool
  deriving Repr, DecidableEq

/-- The vendor-match block (worker.py lines 134-152).  At score ≥ 90 the code
writes `normalized['vendor_id'] = vendor_id` and looks up the canonical name
with `next(v for v in self.vendors if v['vendor_id'] == vendor_id)` (a score
≥ 90 guarantees the best id is set, so the lookup cannot fail). -/
def vendorStep (vendors : List VendorRec) (vendorName : Option Str) (st : RState) :
    RState :=
  match vendorName with
  | some vn =>
      if vn.isEmpty then st
      else
        let r := match_vendor vendors vn
        if r.2.1.geN 90 then
          { st with
              normalized :=
                { st.normalized with
                    vendor_id := r.1
                    vendor_name :=
                      (vendors.find? (fun v => some v.vendor_id = r.1)).map
                        VendorRec.canonical_name }
              rs := .auto_matched
              updated := true }
        else if r.2.1.geN 60 then
          { st with sv := some r.2.2, updated := true }
        else st
  | none => st

/-- The project-match block (worker.py lines 155-171); it does not touch the
status variable. -/
def projectStep (projects : List ProjectRec) (projectName : Option Str) (st : RState) :
    RState :=
  match projectName with
  | some pn =>
      if pn.isEmpty then st
      else
        let r := match_project projects pn
        if r.2.1.geN 90 then
          { st with
              normalized :=
                { st.normalized with
                    project_id := r.1
                    project_name :=
                      (projects.find? (fun p => some p.project_id = r.1)).map
                        ProjectRec.name }
              updated := true }
        else if r.2.1.geN 60 then
          { st with sp := some r.2.2, updated := true }
        else st
  | none => st

/-- Copying `total_amount` (and its optional `currency`) verbatim into
`normalized` (worker.py lines 174-180). -/
def totalsStep (ta : Option (Dec × Option Str)) (st : RState) : RState :=
  match ta with
  | some (v, cur) =>
      { st with
          normalized :=
            { st.normalized with
                total_amount := some v
                currency := match cur with
                  | some c => some c
                  | none => st.normalized.currency }
          updated := true }
  | none => st

/-- Copying `date` verbatim into `normalized` (worker.py lines 182-186). -/
def dateStep (dt : Option Str) (st : RState) : RState :=
  match dt with
  | some d => { st with normalized := { st.normalized with date := some d }, updated := true }
  | none => st

/-- The state after all four blocks of one `reconcile_invoice` run. -/
def reconcileState (vendors : List VendorRec) (projects : List ProjectRec)
    (inv : InvRecord) : RState :=
  dateStep inv.extracted.date
    (totalsStep inv.extracted.total_amount
      (projectStep projects inv.extracted.project_name
        (vendorStep vendors inv.extracted.vendor_name
          { normalized := inv.normalized
            rs := inv.reconciliation_status.getD .needs_review
            sv := inv.suggestions_vendors
            sp := inv.suggestions_projects
            updated := false })))

/-- `reconcile_invoice` (worker.py lines 110-192): run the four blocks over
the initial state, then write `normalized` and `reconciliation_status` back
only when `updated` (when not updated no write happened, so the record is
unchanged); the suggestion slots of `invoice.extra` are mutated in place by
the blocks themselves.  Returns the updated record and the `updated` flag. -/
def reconcile_invoice (vendors : List VendorRec) (projects : List ProjectRec)
    (inv : InvRecord) : InvRecord × Bool :=
  let st := reconcileState vendors projects inv
  ({ inv with
      normalized := if st.updated then st.normalized else inv.normalized
      reconciliation_status :=
        if st.updated then some st.rs else inv.reconciliation_status
      suggestions_vendors := st.sv
      suggestions_projects := st.sp }, st.updated)

/-- The worker's record filter (worker.py lines 206-211): status
`needs_review` or NULL. -/
def needsReconciliation (inv : InvRecord) : Bool :=
  inv.reconciliation_status = some .needs_review || inv.reconciliation_status = none

/-- One polling pass of `run_reconciler_worker` over the store: reconcile
exactly the records matching the filter (the LIMIT-50 batching only spreads
this across successive polls of the convergence loop and is abstracted
here). -/
def reconciler_batch (vendors : List VendorRec) (projects : List ProjectRec)
    (store : List InvRecord) : List InvRecord :=
  store.map (fun inv =>
    if needsReconciliation inv then (reconcile_invoice vendors projects inv).1 else inv)

/-!
### Properties of the fuzzy-match loop and the suggestion sort
-/

theorem Score.ge_of_not_gt {a b : Score} (h : b.gt a = false) : a.ge b = true := by
  simp only [Score.gt, decide_eq_false_iff_not, not_lt] at h
  simp only [Score.ge, ge_iff_le, decide_eq_true_eq]
  omega

theorem Score.ge_of_gt {a b : Score} (h : a.gt b = true) : a.ge b = true := by
  simp only [Score.gt, decide_eq_true_eq] at h
  simp only [Score.ge, ge_iff_le, decide_eq_true_eq]
  omega

theorem Score.ge_trans {a b c : Score} (hb : 0 < b.d) (h1 : a.ge b = true)
    (h2 : b.ge c = true) : a.ge c = true := by
  simp only [Score.ge, ge_iff_le, decide_eq_true_eq] at h1 h2 ⊢
  have h3 : c.n * a.d * b.d ≤ a.n * c.d * b.d := by
    calc c.n * a.d * b.d = c.n * b.d * a.d := by ring
    _ ≤ b.n * c.d * a.d := Nat.mul_le_mul_right _ h2
    _ = b.n * a.d * c.d := by ring
    _ ≤ a.n * b.d * c.d := Nat.mul_le_mul_right _ h1
    _ = a.n * c.d * b.d := by ring
  exact Nat.le_of_mul_le_mul_right h3 hb

/-- `simScore` always has a positive denominator. -/
theorem simScore_d_pos (a b : Str) : 0 < (simScore a b).d := by
  unfold simScore
  split
  · decide
  · rename_i h
    show 0 < a.length + b.length
    omega

theorem mem_insertDesc (x z : Suggestion) (l : List Suggestion) :
    z ∈ insertDesc x l ↔ z = x ∨ z ∈ l := by
  induction l with
  | nil => simp [insertDesc]
  | cons y ys ih =>
      simp only [insertDesc]
      split
      · simp only [List.mem_cons, ih]
        tauto
      · simp only [List.mem_cons]
        try tauto

theorem mem_sortDesc (z : Suggestion) (l : List Suggestion) :
    z ∈ sortDesc l ↔ z ∈ l := by
  induction l with
  | nil => simp [sortDesc]
  | cons x xs ih =>
      simp only [sortDesc, mem_insertDesc, List.mem_cons, ih]

/-- The descending-sort order predicate. -/
def descOrd (a b : Suggestion) : Prop := a.score.ge b.score = true

theorem pairwise_insertDesc (x : Suggestion) (l : List Suggestion)
    (hl : ∀ s ∈ l, 0 < s.score.d)
    (h : l.Pairwise descOrd) : (insertDesc x l).Pairwise descOrd := by
  induction l with
  | nil => simp [insertDesc, descOrd]
  | cons y ys ih =>
      simp only [insertDesc]
      rcases List.pairwise_cons.mp h with ⟨hy, hys⟩
      split
      · rename_i hgt
        refine List.pairwise_cons.mpr ⟨?_, ih (fun s hs => hl s (List.mem_cons_of_mem _ hs)) hys⟩
        intro z hz
        rcases (mem_insertDesc x z ys).mp hz with rfl | hz'
        · exact Score.ge_of_gt hgt
        · exact hy z hz'
      · rename_i hngt
        have hxy : descOrd x y := Score.ge_of_not_gt (Bool.of_not_eq_true hngt ▸ rfl)
        refine List.pairwise_cons.mpr ⟨?_, h⟩
        intro z hz
        rcases List.mem_cons.mp hz with rfl | hz'
        · exact hxy
        · exact Score.ge_trans (hl y (List.mem_cons_self _ _)) hxy (hy z hz')

theorem pairwise_sortDesc (l : List Suggestion) (hl : ∀ s ∈ l, 0 < s.score.d) :
    (sortDesc l).Pairwise descOrd := by
  induction l with
  | nil => simp [sortDesc]
  | cons x xs ih =>
      exact pairwise_insertDesc x (sortDesc xs)
        (fun s hs => hl s (List.mem_cons_of_mem _ ((mem_sortDesc s xs).mp hs)))
        (ih (fun s hs => hl s (List.mem_cons_of_mem _ hs)))

/-- Invariant of the best-match accumulator: the initial value, or a score
achieved by a (vendor, alias) pair of the registry. -/
def BestInv (q : Str) (V : List VendorRec) (acc : MatchAcc) : Prop :=
  (acc.1 = none ∧ acc.2.1 = ⟨0, 1⟩) ∨
  (∃ v, v ∈ V ∧ acc.1 = some v.vendor_id ∧
    ∃ nm, nm ∈ v.all_names ∧ acc.2.1 = simScore (lowerStr q) (lowerStr nm))

/-- Invariant of the suggestion list: every entry scored ≥ 60, comes from a
registry entry, and carries a positive-denominator score. -/
def SuggInv (q : Str) (V : List VendorRec) (acc : MatchAcc) : Prop :=
  ∀ s ∈ acc.2.2, s.score.geN 60 = true ∧ 0 < s.score.d ∧
    ∃ v, v ∈ V ∧ s.sid = v.vendor_id ∧ s.name = v.canonical_name ∧
      ∃ nm, nm ∈ v.all_names ∧ s.score = simScore (lowerStr q) (lowerStr nm)

theorem matchName_gt (q : Str) (sid : Nat) (cn : Str) (acc : MatchAcc) (nm : Str)
    (hgt : (simScore (lowerStr q) (lowerStr nm)).gt acc.2.1 = true) :
    (matchName q sid cn acc nm).1 = some sid ∧
    (matchName q sid cn acc nm).2.1 = simScore (lowerStr q) (lowerStr nm) := by
  unfold matchName
  simp [hgt]

theorem matchName_not_gt (q : Str) (sid : Nat) (cn : Str) (acc : MatchAcc) (nm : Str)
    (hgt : (simScore (lowerStr q) (lowerStr nm)).gt acc.2.1 = false) :
    (matchName q sid cn acc nm).1 = acc.1 ∧
    (matchName q sid cn acc nm).2.1 = acc.2.1 := by
  unfold matchName
  simp [hgt]

theorem matchName_bestInv (q : Str) (V : List VendorRec) (v : VendorRec) (hv : v ∈ V)
    (nm : Str) (hnm : nm ∈ v.all_names) (acc : MatchAcc) (h : BestInv q V acc) :
    BestInv q V (matchName q v.vendor_id v.canonical_name acc nm) := by
  by_cases hgt : (simScore (lowerStr q) (lowerStr nm)).gt acc.2.1 = true
  · have e := matchName_gt q v.vendor_id v.canonical_name acc nm hgt
    exact Or.inr ⟨v, hv, e.1, nm, hnm, e.2⟩
  · rw [Bool.not_eq_true] at hgt
    have e := matchName_not_gt q v.vendor_id v.canonical_name acc nm hgt
    rcases h with ⟨h1, h2⟩ | ⟨v', hv', h1, nm', hnm', h2⟩
    · exact Or.inl ⟨e.1.trans h1, e.2.trans h2⟩
    · exact Or.inr ⟨v', hv', e.1.trans h1, nm', hnm', e.2.trans h2⟩

theorem matchName_suggInv (q : Str) (V : List VendorRec) (v : VendorRec) (hv : v ∈ V)
    (nm : Str) (hnm : nm ∈ v.all_names) (acc : MatchAcc) (h : SuggInv q V acc) :
    SuggInv q V (matchName q v.vendor_id v.canonical_name acc nm) := by
  unfold matchName SuggInv
  intro s hs
  by_cases h60 : (simScore (lowerStr q) (lowerStr nm)).geN 60 = true
  · simp only [h60, if_true] at hs
    rcases List.mem_append.mp hs with hs' | hs'
    · exact h s hs'
    · simp only [List.mem_singleton] at hs'
      subst hs'
      exact ⟨h60, simScore_d_pos _ _, v, hv, rfl, rfl, nm, hnm, rfl⟩
  · rw [Bool.not_eq_true] at h60
    simp only [h60, if_false] at hs
    exact h s hs

theorem foldl_matchName_inv (q : Str) (V : List VendorRec) (v : VendorRec) (hv : v ∈ V) :
    ∀ (names : List Str), (∀ nm ∈ names, nm ∈ v.all_names) →
    ∀ acc, BestInv q V acc → SuggInv q V acc →
    BestInv q V (names.foldl (matchName q v.vendor_id v.canonical_name) acc) ∧
    SuggInv q V (names.foldl (matchName q v.vendor_id v.canonical_name) acc) := by
  intro names
  induction names with
  | nil => intro _ acc hb hs; exact ⟨hb, hs⟩
  | cons nm names ih =>
      intro hsub acc hb hs
      exact ih (fun x hx => hsub x (List.mem_cons_of_mem _ hx)) _
        (matchName_bestInv q V v hv nm (hsub nm (List.mem_cons_self _ _)) acc hb)
        (matchName_suggInv q V v hv nm (hsub nm (List.mem_cons_self _ _)) acc hs)

theorem matchFold_inv (q : Str) (V : List VendorRec) :
    BestInv q V (matchFold q V) ∧ SuggInv q V (matchFold q V) := by
  unfold matchFold
  suffices h : ∀ (vs : List VendorRec), (∀ v ∈ vs, v ∈ V) →
      ∀ acc, BestInv q V acc → SuggInv q V acc →
      BestInv q V (vs.foldl (fun acc v =>
        v.all_names.foldl (matchName q v.vendor_id v.canonical_name) acc) acc) ∧
      SuggInv q V (vs.foldl (fun acc v =>
        v.all_names.foldl (matchName q v.vendor_id v.canonical_name) acc) acc) by
    refine h V (fun v hv => hv) _ (Or.inl ⟨rfl, rfl⟩) ?_
    intro s hs
    simp at hs
  intro vs
  induction vs with
  | nil => intro _ acc hb hs; exact ⟨hb, hs⟩
  | cons v vs ih =>
      intro hsub acc hb hs
      have step := foldl_matchName_inv q V v (hsub v (List.mem_cons_self _ _))
        v.all_names (fun _ hx => hx) acc hb hs
      exact ih (fun x hx => hsub x (List.mem_cons_of_mem _ hx)) _ step.1 step.2

/-- A best id returned by `match_vendor` belongs to a registry entry one of
whose name variants achieves the returned best score. -/
theorem match_vendor_best (V : List VendorRec) (vn : Str) (vid : Nat)
    (h : (match_vendor V vn).1 = some vid) :
    ∃ v, v ∈ V ∧ vid = v.vendor_id ∧ ∃ nm, nm ∈ v.all_names ∧
      (match_vendor V vn).2.1 = simScore (lowerStr (pystrip vn)) (lowerStr nm) := by
  by_cases he : vn.isEmpty = true
  · simp [match_vendor, he] at h
  · rw [Bool.not_eq_true] at he
    simp only [match_vendor, he, Bool.false_eq_true, if_false] at h ⊢
    rcases (matchFold_inv (pystrip vn) V).1 with ⟨h1, _⟩ | ⟨v, hv, h1, nm, hnm, h2⟩
    · rw [h1] at h
      simp at h
    · rw [h1] at h
      simp only [Option.some.injEq] at h
      exact ⟨v, hv, h.symm, nm, hnm, h2⟩

/-- A best score ≥ 90 implies a best id was found (the initial best score 0
cannot pass the threshold). -/
theorem match_vendor_some_of_ge90 (V : List VendorRec) (vn : Str)
    (h : (match_vendor V vn).2.1.geN 90 = true) :
    ∃ vid, (match_vendor V vn).1 = some vid := by
  by_cases he : vn.isEmpty = true
  · simp [match_vendor, he, Score.geN] at h
  · rw [Bool.not_eq_true] at he
    simp only [match_vendor, he, Bool.false_eq_true, if_false] at h ⊢
    rcases (matchFold_inv (pystrip vn) V).1 with ⟨h1, h2⟩ | ⟨v, _, h1, _, _, _⟩
    · rw [h2] at h
      simp [Score.geN] at h
    · exact ⟨_, h1⟩

/-- The suggestion list returned by `match_vendor` has at most 3 entries, is
sorted descending by score, and every entry scored ≥ 60 and names a registry
entry. -/
theorem match_vendor_suggestions (V : List VendorRec) (vn : Str) :
    (match_vendor V vn).2.2.length ≤ 3 ∧
    (match_vendor V vn).2.2.Pairwise descOrd ∧
    ∀ s ∈ (match_vendor V vn).2.2, s.score.geN 60 = true ∧
      ∃ v, v ∈ V ∧ s.sid = v.vendor_id ∧ s.name = v.canonical_name := by
  by_cases he : vn.isEmpty = true
  · simp [match_vendor, he]
  · rw [Bool.not_eq_true] at he
    simp only [match_vendor, he, Bool.false_eq_true, if_false]
    have hs := (matchFold_inv (pystrip vn) V).2
    refine ⟨List.length_take_le _ _, ?_, ?_⟩
    · exact List.Pairwise.sublist (List.take_sublist _ _)
        (pairwise_sortDesc _ (fun s hsm => (hs s hsm).2.1))
    · intro s hsm
      have hmem : s ∈ (matchFold (pystrip vn) V).2.2 :=
        (mem_sortDesc s _).mp ((List.take_sublist _ _).subset hsm)
      rcases hs s hmem with ⟨h60, _, v, hv, hsid, hname, _⟩
      exact ⟨h60, v, hv, hsid, hname⟩

/-!
### Step preservation lemmas for `reconcile_invoice`
-/

theorem projectStep_preserves (P : List ProjectRec) (pn : Option Str) (st : RState) :
    (projectStep P pn st).normalized.vendor_id = st.normalized.vendor_id ∧
    (projectStep P pn st).normalized.vendor_name = st.normalized.vendor_name ∧
    (projectStep P pn st).sv = st.sv ∧
    (projectStep P pn st).rs = st.rs := by
  rcases pn with _ | p
  · exact ⟨rfl, rfl, rfl, rfl⟩
  · simp only [projectStep]
    split_ifs <;> simp

theorem totalsStep_preserves (ta : Option (Dec × Option Str)) (st : RState) :
    (totalsStep ta st).normalized.vendor_id = st.normalized.vendor_id ∧
    (totalsStep ta st).normalized.vendor_name = st.normalized.vendor_name ∧
    (totalsStep ta st).sv = st.sv ∧
    (totalsStep ta st).rs = st.rs := by
  rcases ta with _ | ⟨v, cur⟩ <;> simp [totalsStep]

theorem dateStep_preserves (dt : Option Str) (st : RState) :
    (dateStep dt st).normalized.vendor_id = st.normalized.vendor_id ∧
    (dateStep dt st).normalized.vendor_name = st.normalized.vendor_name ∧
    (dateStep dt st).sv = st.sv ∧
    (dateStep dt st).rs = st.rs := by
  rcases dt with _ | d <;> simp [dateStep]

theorem projectStep_updated (P : List ProjectRec) (pn : Option Str) (st : RState)
    (h : st.updated = true) : (projectStep P pn st).updated = true := by
  rcases pn with _ | p
  · exact h
  · simp only [projectStep]
    split_ifs <;> simp [h]

theorem totalsStep_updated (ta : Option (Dec × Option Str)) (st : RState)
    (h : st.updated = true) : (totalsStep ta st).updated = true := by
  rcases ta with _ | ⟨v, cur⟩ <;> simp [totalsStep, h]

theorem dateStep_updated (dt : Option Str) (st : RState)
    (h : st.updated = true) : (dateStep dt st).updated = true := by
  rcases dt with _ | d <;> simp [dateStep, h]

theorem reconcile_extracted (V : List VendorRec) (P : List ProjectRec) (inv : InvRecord) :
    (reconcile_invoice V P inv).1.extracted = inv.extracted := rfl

theorem reconcile_normalized (V : List VendorRec) (P : List ProjectRec) (inv : InvRecord) :
    (reconcile_invoice V P inv).1.normalized =
      if (reconcileState V P inv).updated then (reconcileState V P inv).normalized
      else inv.normalized := rfl

theorem reconcile_status (V : List VendorRec) (P : List ProjectRec) (inv : InvRecord) :
    (reconcile_invoice V P inv).1.reconciliation_status =
      if (reconcileState V P inv).updated then some (reconcileState V P inv).rs
      else inv.reconciliation_status := rfl

theorem reconcile_sv (V : List VendorRec) (P : List ProjectRec) (inv : InvRecord) :
    (reconcile_invoice V P inv).1.suggestions_vendors = (reconcileState V P inv).sv := rfl

theorem Score.geN_90_false_of_60_false {s : Score} (h : s.geN 60 = false) :
    s.geN 90 = false := by
  simp only [Score.geN, ge_iff_le, decide_eq_false_iff_not, not_le] at h ⊢
  omega

theorem vendorStep_ge90 (V : List VendorRec) (vn : Str)
    (hne : vn.isEmpty = false) (h90 : (match_vendor V vn).2.1.geN 90 = true)
    (st : RState) :
    vendorStep V (some vn) st =
      { st with
          normalized :=
            { st.normalized with
                vendor_id := (match_vendor V vn).1
                vendor_name :=
                  (V.find? (fun v => some v.vendor_id = (match_vendor V vn).1)).map
                    VendorRec.canonical_name }
          rs := .auto_matched
          updated := true } := by
  simp [vendorStep, hne, h90]

theorem vendorStep_mid (V : List VendorRec) (vn : Str)
    (hne : vn.isEmpty = false) (h90 : (match_vendor V vn).2.1.geN 90 = false)
    (h60 : (match_vendor V vn).2.1.geN 60 = true) (st : RState) :
    vendorStep V (some vn) st =
      { st with sv := some (match_vendor V vn).2.2, updated := true } := by
  simp [vendorStep, hne, h90, h60]

theorem vendorStep_low (V : List VendorRec) (vn : Str)
    (hne : vn.isEmpty = false) (h60 : (match_vendor V vn).2.1.geN 60 = false)
    (st : RState) :
    vendorStep V (some vn) st = st := by
  simp [vendorStep, hne, Score.geN_90_false_of_60_false h60, h60]

/-!
### Claim C4
-/

/-- C4: the vendor decision tiers of `reconcile_invoice`.  Tier 1 (best score
≥ 90): writes `normalized.vendor_id` (the best id) and
`normalized.vendor_name` (the canonical name of the first registry entry with
that id), sets status `auto_matched`, and the written id references an entry
one of whose name variants achieved the (≥ 90) best score.  Tier 2 (60 ≤
score < 90): `normalized.vendor_id` untouched, the suggestion list is stored
under the record's extra data (each entry scoring ≥ 60, sorted descending,
at most 3), and a `needs_review`/unset status remains `needs_review`.
Tier 3 (score < 60): no vendor action at all. -/
theorem C4_vendor_decision_tiers :
    (∀ (V : List VendorRec) (P : List ProjectRec) (inv : InvRecord) (vn : Str),
      inv.extracted.vendor_name = some vn → vn.isEmpty = false →
      (match_vendor V vn).2.1.geN 90 = true →
      ((reconcile_invoice V P inv).1.normalized.vendor_id = (match_vendor V vn).1 ∧
       (reconcile_invoice V P inv).1.reconciliation_status = some .auto_matched ∧
       (reconcile_invoice V P inv).1.normalized.vendor_name =
         (V.find? (fun v => some v.vendor_id = (match_vendor V vn).1)).map
           VendorRec.canonical_name ∧
       ∃ vid, (match_vendor V vn).1 = some vid ∧
         ∃ v, v ∈ V ∧ vid = v.vendor_id ∧ ∃ nm, nm ∈ v.all_names ∧
           (match_vendor V vn).2.1 = simScore (lowerStr (pystrip vn)) (lowerStr nm))) ∧
    (∀ (V : List VendorRec) (P : List ProjectRec) (inv : InvRecord) (vn : Str),
      inv.extracted.vendor_name = some vn → vn.isEmpty = false →
      (match_vendor V vn).2.1.geN 90 = false →
      (match_vendor V vn).2.1.geN 60 = true →
      (inv.reconciliation_status = some .needs_review ∨ inv.reconciliation_status = none) →
      ((reconcile_invoice V P inv).1.normalized.vendor_id = inv.normalized.vendor_id ∧
       (reconcile_invoice V P inv).1.suggestions_vendors = some (match_vendor V vn).2.2 ∧
       (reconcile_invoice V P inv).1.reconciliation_status = some .needs_review ∧
       (match_vendor V vn).2.2.length ≤ 3 ∧
       (match_vendor V vn).2.2.Pairwise descOrd ∧
       ∀ s ∈ (match_vendor V vn).2.2, s.score.geN 60 = true)) ∧
    (∀ (V : List VendorRec) (P : List ProjectRec) (inv : InvRecord) (vn : Str),
      inv.extracted.vendor_name = some vn → vn.isEmpty = false →
      (match_vendor V vn).2.1.geN 60 = false →
      ((reconcile_invoice V P inv).1.normalized.vendor_id = inv.normalized.vendor_id ∧
       (reconcile_invoice V P inv).1.normalized.vendor_name = inv.normalized.vendor_name ∧
       (reconcile_invoice V P inv).1.suggestions_vendors = inv.suggestions_vendors)) := by
  refine ⟨?_, ?_, ?_⟩
  · intro V P inv vn hvn hne h90
    have hstate : reconcileState V P inv =
        dateStep inv.extracted.date
          (totalsStep inv.extracted.total_amount
            (projectStep P inv.extracted.project_name
              { normalized :=
                  { inv.normalized with
                      vendor_id := (match_vendor V vn).1
                      vendor_name :=
                        (V.find? (fun v => some v.vendor_id = (match_vendor V vn).1)).map
                          VendorRec.canonical_name }
                rs := .auto_matched
                sv := inv.suggestions_vendors
                sp := inv.suggestions_projects
                updated := true })) := by
      unfold reconcileState
      rw [hvn, vendorStep_ge90 V vn hne h90]
    have hu : (reconcileState V P inv).updated = true := by
      rw [hstate]
      exact dateStep_updated _ _ (totalsStep_updated _ _ (projectStep_updated _ _ _ rfl))
    obtain ⟨vid, hvid⟩ := match_vendor_some_of_ge90 V vn h90
    obtain ⟨v, hv, hveq, nm, hnm, hsc⟩ := match_vendor_best V vn vid hvid
    refine ⟨?_, ?_, ?_, vid, hvid, v, hv, hveq, nm, hnm, hsc⟩
    · rw [reconcile_normalized, if_pos hu, hstate,
        (dateStep_preserves _ _).1, (totalsStep_preserves _ _).1,
        (projectStep_preserves _ _ _).1]
    · rw [reconcile_status, if_pos hu, hstate,
        (dateStep_preserves _ _).2.2.2, (totalsStep_preserves _ _).2.2.2,
        (projectStep_preserves _ _ _).2.2.2]
    · rw [reconcile_normalized, if_pos hu, hstate,
        (dateStep_preserves _ _).2.1, (totalsStep_preserves _ _).2.1,
        (projectStep_preserves _ _ _).2.1]
  · intro V P inv vn hvn hne h90 h60 hst
    have hstate : reconcileState V P inv =
        dateStep inv.extracted.date
          (totalsStep inv.extracted.total_amount
            (projectStep P inv.extracted.project_name
              { normalized := inv.normalized
                rs := inv.reconciliation_status.getD .needs_review
                sv := some (match_vendor V vn).2.2
                sp := inv.suggestions_projects
                updated := true })) := by
      unfold reconcileState
      rw [hvn, vendorStep_mid V vn hne h90 h60]
    have hu : (reconcileState V P inv).updated = true := by
      rw [hstate]
      exact dateStep_updated _ _ (totalsStep_updated _ _ (projectStep_updated _ _ _ rfl))
    have hsug := match_vendor_suggestions V vn
    refine ⟨?_, ?_, ?_, hsug.1, hsug.2.1, fun s hs => (hsug.2.2 s hs).1⟩
    · rw [reconcile_normalized, if_pos hu, hstate,
        (dateStep_preserves _ _).1, (totalsStep_preserves _ _).1,
        (projectStep_preserves _ _ _).1]
    · rw [reconcile_sv, hstate,
        (dateStep_preserves _ _).2.2.1, (totalsStep_preserves _ _).2.2.1,
        (projectStep_preserves _ _ _).2.2.1]
    · rw [reconcile_status, if_pos hu, hstate,
        (dateStep_preserves _ _).2.2.2, (totalsStep_preserves _ _).2.2.2,
        (projectStep_preserves _ _ _).2.2.2]
      rcases hst with hst | hst <;> rw [hst] <;> rfl
  · intro V P inv vn hvn hne h60
    have hstate : reconcileState V P inv =
        dateStep inv.extracted.date
          (totalsStep inv.extracted.total_amount
            (projectStep P inv.extracted.project_name
              { normalized := inv.normalized
                rs := inv.reconciliation_status.getD .needs_review
                sv := inv.suggestions_vendors
                sp := inv.suggestions_projects
                updated := false })) := by
      unfold reconcileState
      rw [hvn, vendorStep_low V vn hne h60]
    have hvid : (reconcileState V P inv).normalized.vendor_id = inv.normalized.vendor_id := by
      rw [hstate, (dateStep_preserves _ _).1, (totalsStep_preserves _ _).1,
        (projectStep_preserves _ _ _).1]
    have hvnm : (reconcileState V P inv).normalized.vendor_name =
        inv.normalized.vendor_name := by
      rw [hstate, (dateStep_preserves _ _).2.1, (totalsStep_preserves _ _).2.1,
        (projectStep_preserves _ _ _).2.1]
    refine ⟨?_, ?_, ?_⟩
    · rw [reconcile_normalized]
      split
      · exact hvid
      · rfl
    · rw [reconcile_normalized]
      split
      · exact hvnm
      · rfl
    · rw [reconcile_sv, hstate,
        (dateStep_preserves _ _).2.2.1, (totalsStep_preserves _ _).2.2.1,
        (projectStep_preserves _ _ _).2.2.1]

/-- Registry for the C4 witness. -/
def C4_vendors : List VendorRec := [⟨1, str "ACME Supplies Pvt Ltd", []⟩]

/-- Record with a given extracted vendor name for the C4 witness. -/
def C4_inv (vn : String) : InvRecord :=
  { extracted :=
      { vendor_name := some (str vn), project_name := none,
        total_amount := none, date := none }
    normalized := ⟨none, none, none, none, none, none, none⟩
    reconciliation_status := some .needs_review
    suggestions_vendors := none
    suggestions_projects := none }

/-- C4 witness: the three tiers applied to a concrete registry.  An exact
match ("ACME Supplies Pvt Ltd", score 100) auto-matches; a partial match
("ACME Supplies", score 2600/34 ≈ 76.5) stores suggestions and keeps
`needs_review`; an unrelated name ("Zzq", score 0) takes no vendor action. -/
theorem C4_vendor_decision_tiers_witness :
    ((reconcile_invoice C4_vendors [] (C4_inv "ACME Supplies Pvt Ltd")).1.normalized.vendor_id =
       (match_vendor C4_vendors (str "ACME Supplies Pvt Ltd")).1 ∧
     (reconcile_invoice C4_vendors [] (C4_inv "ACME Supplies Pvt Ltd")).1.reconciliation_status =
       some .auto_matched ∧
     (reconcile_invoice C4_vendors [] (C4_inv "ACME Supplies Pvt Ltd")).1.normalized.vendor_name =
       (C4_vendors.find? (fun v =>
         some v.vendor_id = (match_vendor C4_vendors (str "ACME Supplies Pvt Ltd")).1)).map
         VendorRec.canonical_name ∧
     ∃ vid, (match_vendor C4_vendors (str "ACME Supplies Pvt Ltd")).1 = some vid ∧
       ∃ v, v ∈ C4_vendors ∧ vid = v.vendor_id ∧ ∃ nm, nm ∈ v.all_names ∧
         (match_vendor C4_vendors (str "ACME Supplies Pvt Ltd")).2.1 =
           simScore (lowerStr (pystrip (str "ACME Supplies Pvt Ltd"))) (lowerStr nm)) ∧
    ((reconcile_invoice C4_vendors [] (C4_inv "ACME Supplies")).1.normalized.vendor_id =
       (C4_inv "ACME Supplies").normalized.vendor_id ∧
     (reconcile_invoice C4_vendors [] (C4_inv "ACME Supplies")).1.suggestions_vendors =
       some (match_vendor C4_vendors (str "ACME Supplies")).2.2 ∧
     (reconcile_invoice C4_vendors [] (C4_inv "ACME Supplies")).1.reconciliation_status =
       some .needs_review ∧
     (match_vendor C4_vendors (str "ACME Supplies")).2.2.length ≤ 3 ∧
     (match_vendor C4_vendors (str "ACME Supplies")).2.2.Pairwise descOrd ∧
     ∀ s ∈ (match_vendor C4_vendors (str "ACME Supplies")).2.2, s.score.geN 60 = true) ∧
    ((reconcile_invoice C4_vendors [] (C4_inv "Zzq")).1.normalized.vendor_id =
       (C4_inv "Zzq").normalized.vendor_id ∧
     (reconcile_invoice C4_vendors [] (C4_inv "Zzq")).1.normalized.vendor_name =
       (C4_inv "Zzq").normalized.vendor_name ∧
     (reconcile_invoice C4_vendors [] (C4_inv "Zzq")).1.suggestions_vendors =
       (C4_inv "Zzq").suggestions_vendors) :=
  ⟨C4_vendor_decision_tiers.1 C4_vendors [] (C4_inv "ACME Supplies Pvt Ltd")
     (str "ACME Supplies Pvt Ltd") rfl (by decide) (by decide),
   C4_vendor_decision_tiers.2.1 C4_vendors [] (C4_inv "ACME Supplies")
     (str "ACME Supplies") rfl (by decide) (by decide) (by decide) (Or.inl rfl),
   C4_vendor_decision_tiers.2.2 C4_vendors [] (C4_inv "Zzq")
     (str "Zzq") rfl (by decide) (by decide)⟩

/-!
### Claim C5: idempotence of reconciliation
-/

/-- Each step, with its parameters fixed, is the identity or one fixed
assignment — which one depends only on the parameters, not on the state. -/
theorem vendorStep_dichotomy (V : List VendorRec) (vno : Option Str) :
    (∀ st, vendorStep V vno st = st) ∨
    (∃ a b, ∀ st, vendorStep V vno st =
      { st with normalized := { st.normalized with vendor_id := a, vendor_name := b },
                rs := .auto_matched, updated := true }) ∨
    (∃ sg, ∀ st, vendorStep V vno st = { st with sv := some sg, updated := true }) := by
  rcases vno with _ | vn
  · exact Or.inl (fun st => rfl)
  · by_cases hne : vn.isEmpty = true
    · exact Or.inl (fun st => by simp [vendorStep, hne])
    · rw [Bool.not_eq_true] at hne
      by_cases h90 : (match_vendor V vn).2.1.geN 90 = true
      · exact Or.inr (Or.inl ⟨_, _, fun st => vendorStep_ge90 V vn hne h90 st⟩)
      · rw [Bool.not_eq_true] at h90
        by_cases h60 : (match_vendor V vn).2.1.geN 60 = true
        · exact Or.inr (Or.inr ⟨_, fun st => vendorStep_mid V vn hne h90 h60 st⟩)
        · rw [Bool.not_eq_true] at h60
          exact Or.inl (fun st => vendorStep_low V vn hne h60 st)

theorem projectStep_dichotomy (P : List ProjectRec) (pno : Option Str) :
    (∀ st, projectStep P pno st = st) ∨
    (∃ a b, ∀ st, projectStep P pno st =
      { st with normalized := { st.normalized with project_id := a, project_name := b },
                updated := true }) ∨
    (∃ sg, ∀ st, projectStep P pno st = { st with sp := some sg, updated := true }) := by
  rcases pno with _ | pn
  · exact Or.inl (fun st => rfl)
  · by_cases hne : pn.isEmpty = true
    · exact Or.inl (fun st => by simp [projectStep, hne])
    · rw [Bool.not_eq_true] at hne
      by_cases h90 : (match_project P pn).2.1.geN 90 = true
      · refine Or.inr (Or.inl ⟨(match_project P pn).1,
          (P.find? (fun p => some p.project_id = (match_project P pn).1)).map
            ProjectRec.name, fun st => ?_⟩)
        simp [projectStep, hne, h90]
      · rw [Bool.not_eq_true] at h90
        by_cases h60 : (match_project P pn).2.1.geN 60 = true
        · refine Or.inr (Or.inr ⟨(match_project P pn).2.2, fun st => ?_⟩)
          simp [projectStep, hne, h90, h60]
        · rw [Bool.not_eq_true] at h60
          refine Or.inl (fun st => ?_)
          simp [projectStep, hne, h90, h60]

theorem totalsStep_dichotomy (ta : Option (Dec × Option Str)) :
    (∀ st, totalsStep ta st = st) ∨
    (∃ v, ∀ st, totalsStep ta st =
      { st with normalized := { st.normalized with total_amount := some v },
                updated := true }) ∨
    (∃ v c, ∀ st, totalsStep ta st =
      { st with
          normalized :=
            { st.normalized with
                total_amount := some v
                currency := some c }
          updated := true }) := by
  rcases ta with _ | ⟨v, cur⟩
  · exact Or.inl (fun st => rfl)
  · rcases cur with _ | c
    · refine Or.inr (Or.inl ⟨v, fun st => ?_⟩)
      simp [totalsStep]
    · refine Or.inr (Or.inr ⟨v, c, fun st => ?_⟩)
      simp [totalsStep]

theorem dateStep_dichotomy (dt : Option Str) :
    (∀ st, dateStep dt st = st) ∨
    (∃ d, ∀ st, dateStep dt st =
      { st with normalized := { st.normalized with date := some d }, updated := true }) := by
  rcases dt with _ | d
  · exact Or.inl (fun st => rfl)
  · exact Or.inr ⟨d, fun st => rfl⟩

/-- Re-running `reconcile_invoice` with unchanged extracted data and an
unchanged registry reproduces the same record exactly: every block's decision
depends only on the extracted fields and the registry, and each block's write
is idempotent. -/
theorem reconcile_invoice_idem (V : List VendorRec) (P : List ProjectRec)
    (inv : InvRecord) :
    reconcile_invoice V P (reconcile_invoice V P inv).1 = reconcile_invoice V P inv := by
  rcases vendorStep_dichotomy V inv.extracted.vendor_name with hv | ⟨a, b, hv⟩ | ⟨sg, hv⟩ <;>
    rcases projectStep_dichotomy P inv.extracted.project_name with hp | ⟨pa, pb, hp⟩ | ⟨pg, hp⟩ <;>
    rcases totalsStep_dichotomy inv.extracted.total_amount with ht | ⟨tv, ht⟩ | ⟨tv, tc, ht⟩ <;>
    rcases dateStep_dichotomy inv.extracted.date with hd | ⟨dv, hd⟩ <;>
    simp only [reconcile_invoice, reconcileState] <;>
    simp only [hv, hp, ht, hd] <;>
    simp

/-- C5: reconciliation is idempotent — a second `reconcile` with unchanged
extracted data and registry yields an identical normalized map and status, and
in particular a record that became `auto_matched` never reverts. -/
theorem C5_reconcile_idempotence :
    ∀ (V : List VendorRec) (P : List ProjectRec) (inv : InvRecord),
      ((reconcile_invoice V P (reconcile_invoice V P inv).1).1.normalized =
        (reconcile_invoice V P inv).1.normalized) ∧
      ((reconcile_invoice V P (reconcile_invoice V P inv).1).1.reconciliation_status =
        (reconcile_invoice V P inv).1.reconciliation_status) ∧
      ((reconcile_invoice V P inv).1.reconciliation_status = some .auto_matched →
        (reconcile_invoice V P (reconcile_invoice V P inv).1).1.reconciliation_status =
          some .auto_matched) := by
  intro V P inv
  have h := reconcile_invoice_idem V P inv
  exact ⟨by rw [h], by rw [h], fun ha => by rw [h]; exact ha⟩

/-- Registry for the C5 witness. -/
def C5_vendors : List VendorRec := [⟨7, str "The Home Depot", [str "Home Depot"]⟩]

/-- Record for the C5 witness. -/
def C5_inv : InvRecord :=
  { extracted :=
      { vendor_name := some (str "Home Depot"), project_name := none,
        total_amount := some (⟨326, 18, 2⟩, none), date := some (str "10/21/2025") }
    normalized := ⟨none, none, none, none, none, none, none⟩
    reconciliation_status := none
    suggestions_vendors := none
    suggestions_projects := none }

/-- C5 witness: a record auto-matched by the first run stays `auto_matched`
under the second. -/
theorem C5_reconcile_idempotence_witness :
    (reconcile_invoice C5_vendors [] C5_inv).1.reconciliation_status =
      some .auto_matched ∧
    (reconcile_invoice C5_vendors []
        (reconcile_invoice C5_vendors [] C5_inv).1).1.reconciliation_status =
      some .auto_matched :=
  ⟨by decide, (C5_reconcile_idempotence C5_vendors [] C5_inv).2.2 (by decide)⟩

/-!
### Claim C6: no backward status transitions by the engine
-/

/-- The final status variable is the original one or `auto_matched`. -/
theorem reconcileState_rs (V : List VendorRec) (P : List ProjectRec) (inv : InvRecord) :
    (reconcileState V P inv).rs = inv.reconciliation_status.getD .needs_review ∨
    (reconcileState V P inv).rs = .auto_matched := by
  unfold reconcileState
  rw [(dateStep_preserves _ _).2.2.2, (totalsStep_preserves _ _).2.2.2,
    (projectStep_preserves _ _ _).2.2.2]
  rcases inv.extracted.vendor_name with _ | vn
  · exact Or.inl rfl
  · simp only [vendorStep]
    split_ifs <;> first | exact Or.inl rfl | exact Or.inr rfl

/-- C6: the worker's reconciliation pass only selects records whose status is
`needs_review` or unset, so a `manual` or `ignored` record is returned
untouched; and `reconcile_invoice` itself can only ever write the original
status back or `auto_matched`, so the engine never produces a `manual` or
`ignored` status that was not already there. -/
theorem C6_no_backward_transitions :
    (∀ (V : List VendorRec) (P : List ProjectRec) (store : List InvRecord) (i : Nat)
       (inv : InvRecord), store[i]? = some inv →
       (inv.reconciliation_status = some .manual ∨
        inv.reconciliation_status = some .ignored) →
       (reconciler_batch V P store)[i]? = some inv) ∧
    (∀ (V : List VendorRec) (P : List ProjectRec) (inv : InvRecord),
       ((reconcile_invoice V P inv).1.reconciliation_status = some .manual →
         inv.reconciliation_status = some .manual) ∧
       ((reconcile_invoice V P inv).1.reconciliation_status = some .ignored →
         inv.reconciliation_status = some .ignored)) := by
  constructor
  · intro V P store i inv hi hst
    have hneeds : needsReconciliation inv = false := by
      rcases hst with hst | hst <;> simp [needsReconciliation, hst]
    unfold reconciler_batch
    rw [List.getElem?_map, hi]
    simp [hneeds]
  · intro V P inv
    constructor
    · intro hm
      rw [reconcile_status] at hm
      by_cases hu : (reconcileState V P inv).updated = true
      · rw [if_pos hu] at hm
        simp only [Option.some.injEq] at hm
        rcases reconcileState_rs V P inv with hrs | hrs
        · rw [hrs] at hm
          rcases ho : inv.reconciliation_status with _ | s
          · rw [ho] at hm
            simp at hm
          · rw [ho] at hm
            simp only [Option.getD_some] at hm
            rw [hm]
        · rw [hrs] at hm
          simp at hm
      · rw [if_neg hu] at hm
        exact hm
    · intro hm
      rw [reconcile_status] at hm
      by_cases hu : (reconcileState V P inv).updated = true
      · rw [if_pos hu] at hm
        simp only [Option.some.injEq] at hm
        rcases reconcileState_rs V P inv with hrs | hrs
        · rw [hrs] at hm
          rcases ho : inv.reconciliation_status with _ | s
          · rw [ho] at hm
            simp at hm
          · rw [ho] at hm
            simp only [Option.getD_some] at hm
            rw [hm]
        · rw [hrs] at hm
          simp at hm
      · rw [if_neg hu] at hm
        exact hm

/-- Record for the C6 witness: a manually-resolved record. -/
def C6_inv : InvRecord :=
  { extracted := { vendor_name := none, project_name := none, total_amount := none, date := none }
    normalized := ⟨none, none, none, none, none, none, none⟩
    reconciliation_status := some .manual
    suggestions_vendors := none
    suggestions_projects := none }

/-- C6 witness: a `manual` record passes through a worker batch unchanged, and
a `manual` status after reconciliation was already `manual` before. -/
theorem C6_no_backward_transitions_witness :
    (reconciler_batch [] [] [C6_inv])[0]? = some C6_inv ∧
    C6_inv.reconciliation_status = some .manual :=
  ⟨C6_no_backward_transitions.1 [] [] [C6_inv] 0 C6_inv rfl (Or.inl rfl),
   (C6_no_backward_transitions.2 [] [] C6_inv).1 (by decide)⟩

/-!
### Ingestion paths and the one-record-per-source invariant
(`src/services/api/sync_inbox.py`, `src/services/worker/message_adapter.py`,
`src/services/extractor/worker.py::process_extraction_job`)

The `invoices` table (src/shared/models.py line 33) declares `source_email_id`
as a plain Text column with no unique constraint, so the only protection
against duplicate records is an explicit existence check before insert.
-/

/-- A persisted invoice record as the ingestion paths see it: the source
email id plus an opaque payload standing for all other columns. -/
structure StoredDoc where
  source_email_id : Str
  payload : Nat
  deriving Repr, DecidableEq

/-- The document store (the `invoices` table). -/
abbrev DocStore := List StoredDoc

/-- Number of records with a given source id. -/
def countSrc (store : DocStore) (mid : Str) : Nat :=
  (store.filter (fun r => r.source_email_id = mid)).length

/-- `process_extraction_job` (extractor worker.py lines 510-560): builds a new
`Invoice` and `db.add`s it unconditionally — there is no existence check. -/
def process_extraction_job (store : DocStore) (email_id : Str) (payload : Nat) :
    DocStore :=
  store ++ [⟨email_id, payload⟩]

/-- `process_message_by_id` (message_adapter.py lines 21-307): with
`force=False` an existing record for the message id short-circuits
(`already_processed=True`, no insert); otherwise a new record is inserted.
Returns the store and the `already_processed` flag. -/
def process_message_by_id (force : Bool) (store : DocStore) (message_id : Str)
    (payload : Nat) : DocStore × Bool :=
  if !force && store.any (fun r => r.source_email_id = message_id) then (store, true)
  else (store ++ [⟨message_id, payload⟩], false)

/-- Outcome of one message of the sync-inbox loop. -/
inductive SyncOutcome where
  | skippedExisting
  | skippedNoAttachments
  | processedNew
  | processedExisting
  deriving Repr, DecidableEq

/-- One message of the `sync_inbox` loop (sync_inbox.py lines 94-137):
existence check first (skip if a record for the id exists), then the
no-attachments check, then `process_message_by_id(message_id, force=False)`. -/
def sync_process_message (store : DocStore) (message_id : Str)
    (hasAttachments : Bool) (payload : Nat) : DocStore × SyncOutcome :=
  if store.any (fun r => r.source_email_id = message_id) then (store, .skippedExisting)
  else if !hasAttachments then (store, .skippedNoAttachments)
  else
    let r := process_message_by_id false store message_id payload
    (r.1, if r.2 then .processedExisting else .processedNew)

/-- C7 (counterexample): the extractor-queue ingestion path
`process_extraction_job` performs no existence check before insert, and
`invoices.source_email_id` carries no unique constraint — processing two
extraction jobs for the same source email id (e.g. the same message enqueued
twice, or the in-memory dedup set of the ingestion loop lost on restart)
creates two records for that source. -/
theorem C7_counterexample :
    countSrc (process_extraction_job
      (process_extraction_job [] (str "m1") 0) (str "m1") 1) (str "m1") = 2 ∧
    ¬ countSrc (process_extraction_job
      (process_extraction_job [] (str "m1") 0) (str "m1") 1) (str "m1") ≤ 1 := by
  refine ⟨by decide, by decide⟩

/-- C7 (amended): the `sync_inbox` path and `process_message_by_id` with
`force=False` detect an already-persisted source id by an existence check
before insert and treat it as an already-processed no-op (skip, not an
error), so these paths never create a second record; the extractor-queue path
`process_extraction_job` performs no such check and can. -/
theorem C7_amended_checked_paths_skip :
    ∀ (store : DocStore) (mid : Str) (hasAtt : Bool) (p q : Nat),
      1 ≤ countSrc store mid →
      sync_process_message store mid hasAtt p = (store, .skippedExisting) ∧
      process_message_by_id false store mid q = (store, true) := by
  intro store mid hasAtt p q h
  have hpos : 0 < (store.filter (fun r => r.source_email_id = mid)).length := h
  obtain ⟨r, hr⟩ := List.exists_mem_of_length_pos hpos
  have hr' := List.mem_filter.mp hr
  have hany : store.any (fun r => decide (r.source_email_id = mid)) = true :=
    List.any_eq_true.mpr ⟨r, hr'.1, hr'.2⟩
  constructor
  · simp only [sync_process_message, hany, if_true]
  · simp only [process_message_by_id, Bool.not_false, Bool.true_and, hany, if_true]

/-- C7 witness for the amended claim: a store already holding a record for
"m1" is unchanged by both checked paths. -/
theorem C7_amended_checked_paths_skip_witness :
    sync_process_message [⟨str "m1", 0⟩] (str "m1") true 5 =
      ([⟨str "m1", 0⟩], .skippedExisting) ∧
    process_message_by_id false [⟨str "m1", 0⟩] (str "m1") 5 =
      ([⟨str "m1", 0⟩], true) :=
  C7_amended_checked_paths_skip [⟨str "m1", 0⟩] (str "m1") true 5 5 (by decide)

/-!
### Item categorization and BOM numbering
(`src/services/extractor/categorizer.py`)
-/

/-- `DEFAULT_CATEGORIES` (categorizer.py lines 18-30). -/
def DEFAULT_CATEGORIES : List Str :=
  [str "Electrical", str "Hardware", str "Tools", str "Plumbing", str "HVAC",
   str "Materials", str "Safety", str "Fasteners", str "Lumber", str "Concrete",
   str "Other"]

/-- A parsed line item before categorization (description plus the numeric and
sku columns the table parser can produce). -/
structure RawItem where
  description : Str
  quantity : Option Dec
  unit_price : Option Dec
  subtotal : Option Dec
  sku : Option Str
  deriving Repr, DecidableEq

/-- A categorized item: `item.copy()` plus the added `category` and
`bom_number` keys. -/
structure CatItem where
  base : RawItem
  category : Str
  bom_number : Str
  deriving Repr, DecidableEq

/-- The decimal digit character of `k < 10`. -/
def digitChar10 (k : Nat) : Char :=
  match k with
  | 0 => '0' | 1 => '1' | 2 => '2' | 3 => '3' | 4 => '4'
  | 5 => '5' | 6 => '6' | 7 => '7' | 8 => '8' | _ => '9'

/-- The value of a decimal digit character. -/
def digitVal10 (c : Char) : Nat :=
  match c with
  | '0' => 0 | '1' => 1 | '2' => 2 | '3' => 3 | '4' => 4
  | '5' => 5 | '6' => 6 | '7' => 7 | '8' => 8 | _ => 9

/-- Digits of `n` (most significant first, empty for 0), fuel-bounded; any
fuel ≥ n is sufficient. -/
def digitsAux : Nat → Nat → Str
  | 0, _ => []
  | fuel + 1, n => if n = 0 then [] else digitsAux fuel (n / 10) ++ [digitChar10 (n % 10)]

/-- The decimal numeral of `n`. -/
def natDigits (n : Nat) : Str := if n = 0 then ['0'] else digitsAux n n

/-- Python `f"{seq:03d}"`: the numeral left-padded with zeros to width 3. -/
def pad3 (n : Nat) : Str := List.replicate (3 - (natDigits n).length) '0' ++ natDigits n

/-- `f"{category[:3].upper()}-{seq:03d}"` (categorizer.py lines 131, 180). -/
def bom_number_of (category : Str) (seq : Nat) : Str :=
  upperStr (category.take 3) ++ '-' :: pad3 seq

/-- Lookup in the `category_bom_counter` dict. -/
def ctrGet (ctr : List (Str × Nat)) (cat : Str) : Option Nat :=
  (ctr.find? (fun e => e.1 = cat)).map Prod.snd

/-- Update of the `category_bom_counter` dict. -/
def ctrSet (ctr : List (Str × Nat)) (cat : Str) (n : Nat) : List (Str × Nat) :=
  match ctr with
  | [] => [(cat, n)]
  | e :: rest => if e.1 = cat then (cat, n) :: rest else e :: ctrSet rest cat n

/-- The per-item numbering loop shared verbatim by both paths (categorizer.py
lines 113-137 and 166-185): pick the category, bump its counter (0 if absent),
emit `bom_number`.  The two paths differ only in `catOf`. -/
def assignLoop (catOf : RawItem → Str) (ctr : List (Str × Nat)) :
    List RawItem → List CatItem
  | [] => []
  | it :: rest =>
      let category := catOf it
      let n := (ctrGet ctr category).getD 0 + 1
      ⟨it, category, bom_number_of category n⟩ ::
        assignLoop catOf (ctrSet ctr category n) rest

/-- `category_keywords` (categorizer.py lines 153-164), in dict insertion
order ("bracket" appears twice in the source's Hardware list and is kept). -/
def category_keywords : List (Str × List Str) :=
  [(str "Electrical",
    [str "wire", str "outlet", str "switch", str "box", str "breaker", str "circuit",
     str "electrical", str "cable", str "conduit", str "octagon", str "gang"]),
   (str "Hardware",
    [str "screw", str "nail", str "bolt", str "hinge", str "handle", str "bracket",
     str "bracket", str "hardware"]),
   (str "Tools",
    [str "hammer", str "drill", str "saw", str "wrench", str "tool", str "bit",
     str "puller"]),
   (str "Plumbing",
    [str "pipe", str "fitting", str "faucet", str "valve", str "plumbing", str "pvc"]),
   (str "HVAC", [str "duct", str "vent", str "filter", str "thermostat", str "hvac"]),
   (str "Materials", [str "drywall", str "insulation", str "material"]),
   (str "Safety", [str "glove", str "helmet", str "goggle", str "safety"]),
   (str "Fasteners",
    [str "screw", str "nail", str "bolt", str "washer", str "fastener"]),
   (str "Lumber",
    [str "lumber", str "wood", str "board", str "plywood", str "2x4", str "2x6"]),
   (str "Concrete", [str "cement", str "concrete", str "aggregate", str "additive"])]

/-- Keyword category of a description (categorizer.py lines 166-174): lowered
description, first table row one of whose keywords occurs in it, else
"Other". -/
def keywordCategory (desc : Str) : Str :=
  match category_keywords.find? (fun e => e.2.any (fun kw => isSubstr kw (lowerStr desc))) with
  | some e => e.1
  | none => str "Other"

/-- `_categorize_with_keywords` (categorizer.py lines 147-187). -/
def categorize_with_keywords (line_items : List RawItem) : List CatItem :=
  assignLoop (fun it => keywordCategory it.description) [] line_items

/-- One parsed entry of the classifier's JSON response (an entry missing the
`category` key defaults to "Other" at parse time). -/
structure RespEntry where
  item_index : Nat
  category : Str
  deriving Repr, DecidableEq

/-- The category the classifier path picks for one item (categorizer.py lines
113-125): `item_idx = line_items.index(item) + 1` (the index of the first
equal item), the first response entry with that index ("Other" if none), then
validated against `DEFAULT_CATEGORIES`. -/
def ollamaCategory (resp : List RespEntry) (line_items : List RawItem)
    (it : RawItem) : Str :=
  let idx := line_items.indexOf it + 1
  let category :=
    match resp.find? (fun e => e.item_index = idx) with
    | some e => e.category
    | none => str "Other"
  if DEFAULT_CATEGORIES.contains category then category else str "Other"

/-- The mapping-and-numbering step of `categorize_items_with_ollama` for a
successfully parsed classifier response (categorizer.py lines 109-140); when
the classifier is unavailable or its output unparsable the function returns
`_categorize_with_keywords(line_items)` instead (lines 42-44, 104-107,
142-144). -/
def categorize_items_with_ollama (resp : List RespEntry)
    (line_items : List RawItem) : List CatItem :=
  assignLoop (ollamaCategory resp line_items) [] line_items

/-- The five line items of claim C8 (their keyword categories are
Electrical, Electrical, Hardware, Electrical, Other). -/
def C8_items : List RawItem :=
  [⟨str "wire spool", none, none, none, none⟩,
   ⟨str "cable ties", none, none, none, none⟩,
   ⟨str "door hinge", none, none, none, none⟩,
   ⟨str "outlet cover", none, none, none, none⟩,
   ⟨str "misc fee", none, none, none, none⟩]

/-- A classifier response assigning the same five categories. -/
def C8_resp : List RespEntry :=
  [⟨1, str "Electrical"⟩, ⟨2, str "Electrical"⟩, ⟨3, str "Hardware"⟩,
   ⟨4, str "Electrical"⟩, ⟨5, str "Other"⟩]

/-- C8: for 5 line items categorized [Electrical, Electrical, Hardware,
Electrical, Other], the assigned BOM numbers are exactly ELE-001, ELE-002,
HAR-001, ELE-003, OTH-001 (category's first three letters uppercased plus a
zero-padded per-category counter starting at 1, in item order), on both the
classifier path and the keyword fallback path. -/
theorem C8_bom_numbering :
    (categorize_items_with_ollama C8_resp C8_items).map CatItem.category =
      [str "Electrical", str "Electrical", str "Hardware", str "Electrical",
       str "Other"] ∧
    (categorize_items_with_ollama C8_resp C8_items).map CatItem.bom_number =
      [str "ELE-001", str "ELE-002", str "HAR-001", str "ELE-003", str "OTH-001"] ∧
    (categorize_with_keywords C8_items).map CatItem.category =
      [str "Electrical", str "Electrical", str "Hardware", str "Electrical",
       str "Other"] ∧
    (categorize_with_keywords C8_items).map CatItem.bom_number =
      [str "ELE-001", str "ELE-002", str "HAR-001", str "ELE-003", str "OTH-001"] := by
  refine ⟨by decide, by decide, by decide, by decide⟩

/-!
### Invariants of the numbering loop (claim C10)
-/

theorem assignLoop_map_base (catOf : RawItem → Str) :
    ∀ (ctr : List (Str × Nat)) (items : List RawItem),
      (assignLoop catOf ctr items).map CatItem.base = items := by
  intro ctr items
  induction items generalizing ctr with
  | nil => rfl
  | cons it rest ih => simp [assignLoop, ih]

theorem assignLoop_all_category (catOf : RawItem → Str) (p : Str → Bool) :
    ∀ (ctr : List (Str × Nat)) (items : List RawItem),
      (∀ it ∈ items, p (catOf it) = true) →
      (assignLoop catOf ctr items).all (fun c => p c.category) = true := by
  intro ctr items
  induction items generalizing ctr with
  | nil => intro _; rfl
  | cons it rest ih =>
      intro h
      simp only [assignLoop, List.all_cons, Bool.and_eq_true]
      exact ⟨h it (List.mem_cons_self _ _),
        ih _ (fun x hx => h x (List.mem_cons_of_mem _ hx))⟩

theorem ctrGet_cons_pos (e : Str × Nat) (rest : List (Str × Nat)) (cat : Str)
    (h : e.1 = cat) : ctrGet (e :: rest) cat = some e.2 := by
  unfold ctrGet
  rw [@List.find?_cons_of_pos _ (fun x => decide (x.1 = cat)) e rest
    (decide_eq_true h)]
  rfl

theorem ctrGet_cons_neg (e : Str × Nat) (rest : List (Str × Nat)) (cat : Str)
    (h : ¬ e.1 = cat) : ctrGet (e :: rest) cat = ctrGet rest cat := by
  unfold ctrGet
  rw [@List.find?_cons_of_neg _ (fun x => decide (x.1 = cat)) e rest
    (by simp only [decide_eq_true_eq]; exact h)]

theorem ctrGet_ctrSet (cat cat' : Str) (n : Nat) :
    ∀ ctr, ctrGet (ctrSet ctr cat n) cat' =
      if cat' = cat then some n else ctrGet ctr cat' := by
  intro ctr
  induction ctr with
  | nil =>
      by_cases h : cat' = cat
      · rw [if_pos h, show ctrSet [] cat n = [(cat, n)] from rfl,
          ctrGet_cons_pos _ _ _ h.symm]
      · rw [if_neg h, show ctrSet [] cat n = [(cat, n)] from rfl,
          ctrGet_cons_neg _ _ _ (fun x => h x.symm)]
  | cons e rest ih =>
      by_cases he : e.1 = cat
      · rw [show ctrSet (e :: rest) cat n = (cat, n) :: rest from by
          simp [ctrSet, he]]
        by_cases h : cat' = cat
        · rw [if_pos h, ctrGet_cons_pos _ _ _ h.symm]
        · rw [if_neg h, ctrGet_cons_neg _ _ _ (fun x => h x.symm),
            ctrGet_cons_neg _ _ _ (fun x => h (he.symm.trans x).symm)]
      · rw [show ctrSet (e :: rest) cat n = e :: ctrSet rest cat n from by
          simp [ctrSet, he]]
        by_cases hc : e.1 = cat'
        · have h : ¬ (cat' = cat) := fun x => he (hc.trans x)
          rw [if_neg h, ctrGet_cons_pos _ _ _ hc, ctrGet_cons_pos _ _ _ hc]
        · rw [ctrGet_cons_neg _ _ _ hc, ih]
          by_cases h : cat' = cat
          · rw [if_pos h, if_pos h]
          · rw [if_neg h, if_neg h, ctrGet_cons_neg _ _ _ hc]

/-- Position-wise characterization of the numbering loop: the i-th output is
the i-th item with its category and the BOM number whose sequence counts the
earlier same-category items (plus the initial counter value). -/
theorem assignLoop_getElem (catOf : RawItem → Str) :
    ∀ (items : List RawItem) (ctr : List (Str × Nat)) (i : Nat) (it : RawItem),
      items[i]? = some it →
      (assignLoop catOf ctr items)[i]? =
        some ⟨it, catOf it,
          bom_number_of (catOf it)
            ((ctrGet ctr (catOf it)).getD 0 + 1 +
              ((items.take i).filter (fun x => catOf x = catOf it)).length)⟩ := by
  intro items
  induction items with
  | nil => intro ctr i it h; simp at h
  | cons it0 rest ih =>
      intro ctr i it h
      cases i with
      | zero =>
          simp only [List.getElem?_cons_zero, Option.some.injEq] at h
          subst h
          simp [assignLoop]
      | succ i =>
          simp only [List.getElem?_cons_succ] at h
          rw [show assignLoop catOf ctr (it0 :: rest) =
            ⟨it0, catOf it0,
              bom_number_of (catOf it0) ((ctrGet ctr (catOf it0)).getD 0 + 1)⟩ ::
              assignLoop catOf
                (ctrSet ctr (catOf it0) ((ctrGet ctr (catOf it0)).getD 0 + 1)) rest
            from rfl,
            List.getElem?_cons_succ, ih _ i it h]
          have hseq :
              (ctrGet (ctrSet ctr (catOf it0) ((ctrGet ctr (catOf it0)).getD 0 + 1))
                  (catOf it)).getD 0 + 1 +
                ((rest.take i).filter (fun x => catOf x = catOf it)).length =
              (ctrGet ctr (catOf it)).getD 0 + 1 +
                (((it0 :: rest).take (i + 1)).filter
                  (fun x => catOf x = catOf it)).length := by
            rw [ctrGet_ctrSet, List.take_succ_cons, List.filter_cons]
            by_cases hc : catOf it = catOf it0
            · rw [if_pos hc, if_pos (decide_eq_true hc.symm)]
              simp only [Option.getD_some, List.length_cons, hc]
              omega
            · rw [if_neg hc,
                if_neg (by simp only [decide_eq_true_eq]; exact fun x => hc x.symm)]
          rw [hseq]

/-- Numeric value of a digit string (most significant digit first). -/
def valOfDigits (s : Str) : Nat := s.foldl (fun a c => 10 * a + digitVal10 c) 0

theorem valOfDigits_append_digit (s : Str) (c : Char) :
    valOfDigits (s ++ [c]) = 10 * valOfDigits s + digitVal10 c := by
  unfold valOfDigits
  rw [List.foldl_append]
  rfl

theorem digitVal10_digitChar10 : ∀ k < 10, digitVal10 (digitChar10 k) = k := by
  decide

theorem digitsAux_val : ∀ fuel n, n ≤ fuel → valOfDigits (digitsAux fuel n) = n := by
  intro fuel
  induction fuel with
  | zero =>
      intro n h
      have h0 : n = 0 := by omega
      subst h0
      rfl
  | succ fuel ih =>
      intro n h
      by_cases h0 : n = 0
      · subst h0
        simp [digitsAux, valOfDigits]
      · rw [show digitsAux (fuel + 1) n =
            digitsAux fuel (n / 10) ++ [digitChar10 (n % 10)] from by
          simp [digitsAux, h0]]
        rw [valOfDigits_append_digit, ih (n / 10) (by omega),
          digitVal10_digitChar10 (n % 10) (by omega)]
        omega

theorem natDigits_val (n : Nat) : valOfDigits (natDigits n) = n := by
  unfold natDigits
  by_cases h : n = 0
  · subst h
    rfl
  · rw [if_neg h]
    exact digitsAux_val n n le_rfl

theorem valOfDigits_zeros_append (s : Str) :
    ∀ k, valOfDigits (List.replicate k '0' ++ s) = valOfDigits s := by
  intro k
  induction k with
  | zero => rfl
  | succ k ih =>
      rw [List.replicate_succ, List.cons_append]
      exact ih

theorem pad3_val (n : Nat) : valOfDigits (pad3 n) = n := by
  unfold pad3
  rw [valOfDigits_zeros_append]
  exact natDigits_val n

theorem pad3_inj (m n : Nat) (h : pad3 m = pad3 n) : m = n := by
  rw [← pad3_val m, ← pad3_val n, h]

/-- Every default category has a three-character uppercased code. -/
theorem code3_len : ∀ c ∈ DEFAULT_CATEGORIES, (upperStr (c.take 3)).length = 3 := by
  decide

/-- The three-letter uppercased codes of the default categories are pairwise
distinct (ELE, HAR, TOO, PLU, HVA, MAT, SAF, FAS, LUM, CON, OTH). -/
theorem code3_inj :
    ∀ c1 ∈ DEFAULT_CATEGORIES, ∀ c2 ∈ DEFAULT_CATEGORIES,
      upperStr (c1.take 3) = upperStr (c2.take 3) → c1 = c2 := by
  decide

theorem bom_number_of_inj (c1 c2 : Str) (s1 s2 : Nat)
    (h1 : c1 ∈ DEFAULT_CATEGORIES) (h2 : c2 ∈ DEFAULT_CATEGORIES)
    (h : bom_number_of c1 s1 = bom_number_of c2 s2) : c1 = c2 ∧ s1 = s2 := by
  unfold bom_number_of at h
  have hl : (upperStr (c1.take 3)).length = (upperStr (c2.take 3)).length := by
    rw [code3_len c1 h1, code3_len c2 h2]
  obtain ⟨hp, hs⟩ := List.append_inj h hl
  refine ⟨code3_inj c1 h1 c2 h2 hp, ?_⟩
  have hpad : pad3 s1 = pad3 s2 := (List.cons_eq_cons.mp hs).2
  exact pad3_inj s1 s2 hpad

/-- The keyword path only ever picks a key of the keyword table or "Other",
all of which are default categories. -/
theorem keywordCategory_mem (desc : Str) :
    keywordCategory desc ∈ DEFAULT_CATEGORIES := by
  unfold keywordCategory
  cases hf : category_keywords.find?
      (fun e => e.2.any (fun kw => isSubstr kw (lowerStr desc))) with
  | none => decide
  | some e =>
      have he : e ∈ category_keywords := List.mem_of_find?_eq_some hf
      have hall : ∀ x ∈ category_keywords, x.1 ∈ DEFAULT_CATEGORIES := by decide
      exact hall e he

theorem contains_validate (cat : Str) :
    (if DEFAULT_CATEGORIES.contains cat then cat else str "Other") ∈
      DEFAULT_CATEGORIES := by
  by_cases h : DEFAULT_CATEGORIES.contains cat = true
  · rw [if_pos h]
    simpa using h
  · rw [if_neg h]
    decide

/-- The classifier path validates against `DEFAULT_CATEGORIES` and falls back
to "Other". -/
theorem ollamaCategory_mem (resp : List RespEntry) (line_items : List RawItem)
    (it : RawItem) : ollamaCategory resp line_items it ∈ DEFAULT_CATEGORIES :=
  contains_validate _

theorem length_assignLoop (catOf : RawItem → Str) (ctr : List (Str × Nat))
    (items : List RawItem) :
    (assignLoop catOf ctr items).length = items.length := by
  conv_rhs => rw [← assignLoop_map_base catOf ctr items]
  rw [List.length_map]

/-- Distinctness of the assigned BOM numbers: for same-category positions the
per-category sequence strictly increases, and distinct default categories get
distinct three-letter codes. -/
theorem assignLoop_bom_nodup (catOf : RawItem → Str) (items : List RawItem)
    (hcat : ∀ it ∈ items, catOf it ∈ DEFAULT_CATEGORIES) :
    ((assignLoop catOf [] items).map CatItem.bom_number).Nodup := by
  rw [List.nodup_iff_getElem?_ne_getElem?]
  intro i j hij hj hEq
  rw [List.length_map, length_assignLoop] at hj
  have hi : i < items.length := lt_trans hij hj
  have hgi : items[i]? = some items[i] := List.getElem?_eq_getElem hi
  have hgj : items[j]? = some items[j] := List.getElem?_eq_getElem hj
  rw [List.getElem?_map, List.getElem?_map,
    assignLoop_getElem catOf items [] i (items[i]) hgi,
    assignLoop_getElem catOf items [] j (items[j]) hgj,
    Option.map_some', Option.map_some'] at hEq
  have hbom := Option.some.inj hEq
  obtain ⟨hc, hs⟩ := bom_number_of_inj _ _ _ _
    (hcat _ (List.getElem_mem hi)) (hcat _ (List.getElem_mem hj)) hbom
  simp only [hc] at hs
  have hLij :
      ((items.take i).filter (fun x => catOf x = catOf items[j])).length + 1 ≤
        ((items.take j).filter (fun x => catOf x = catOf items[j])).length := by
    have e1 : items.take j =
        items.take (i + 1) ++ (items.drop (i + 1)).take (j - (i + 1)) := by
      rw [← List.take_add]
      congr 1
      omega
    have e2 : items.take (i + 1) = items.take i ++ [items[i]] := by
      rw [List.take_succ, hgi]
      rfl
    rw [e1, List.filter_append, List.length_append, e2, List.filter_append,
      List.length_append]
    have e3 : (([items[i]]).filter (fun x => catOf x = catOf items[j])).length
        = 1 := by
      simp [hc]
    rw [e3]
    omega
  omega

/-- C10: on both the classifier path and the keyword fallback path,
categorization preserves the input items in order (so same length), assigns
every item a category drawn from `DEFAULT_CATEGORIES` (anything unrecognized
became "Other"), and the BOM numbers assigned within one call are pairwise
distinct. -/
theorem C10_categorization_invariants (resp : List RespEntry)
    (line_items : List RawItem) :
    ((categorize_items_with_ollama resp line_items).map CatItem.base =
        line_items ∧
      (categorize_items_with_ollama resp line_items).all
        (fun c => DEFAULT_CATEGORIES.contains c.category) = true ∧
      ((categorize_items_with_ollama resp line_items).map
        CatItem.bom_number).Nodup) ∧
    ((categorize_with_keywords line_items).map CatItem.base = line_items ∧
      (categorize_with_keywords line_items).all
        (fun c => DEFAULT_CATEGORIES.contains c.category) = true ∧
      ((categorize_with_keywords line_items).map CatItem.bom_number).Nodup) := by
  refine ⟨⟨assignLoop_map_base _ _ _, ?_, ?_⟩,
    ⟨assignLoop_map_base _ _ _, ?_, ?_⟩⟩
  · exact assignLoop_all_category _ _ _ _
      (fun it _ => by simpa using ollamaCategory_mem resp line_items it)
  · exact assignLoop_bom_nodup _ _
      (fun it _ => ollamaCategory_mem resp line_items it)
  · exact assignLoop_all_category _ _ _ _
      (fun it _ => by simpa using keywordCategory_mem it.description)
  · exact assignLoop_bom_nodup _ _
      (fun it _ => keywordCategory_mem it.description)

/-!
### PDF text extraction and the OCR fallback trigger
(`worker.py`, `InvoiceExtractor.extract_text_from_pdf`, lines 85-188)
-/

/-- `f"--- Page {page_num} ---\n{page_text}"` (worker.py line 96). -/
def pageMarked (num : Nat) (page : Str) : Str :=
  str "--- Page " ++ natDigits num ++ str " ---" ++ '\n' :: page

/-- The `text_parts` list: pages enumerated from 1, a marked part appended
only for pages whose extracted text is non-empty (worker.py lines 93-96). -/
def textParts : Nat → List Str → List Str
  | _, [] => []
  | num, p :: rest =>
      if p.isEmpty then textParts (num + 1) rest
      else pageMarked num p :: textParts (num + 1) rest

/-- `extract_text_from_pdf` restricted to its text result (worker.py lines
85-96 and 162-174): `pages` holds the digital per-page texts, `ocrPages` the
per-page OCR texts that would be produced on the fallback path; the Boolean
records whether the OCR path ran. -/
def extract_text_from_pdf (pages ocrPages : List Str) : Str × Bool :=
  let fullText := joinNL (textParts 1 pages)
  if (pystrip fullText).length < 100 then (joinNL ocrPages, true)
  else (fullText, false)

set_option maxRecDepth 20000 in
/-- C9, counterexample: the trigger is `len(full_text.strip()) < 100`, not a
test of the concatenated text's length. A one-page document whose digital
text is "xxxxx" followed by 480 spaces yields concatenated text of length
exactly 500 (marker included), yet the OCR path IS invoked, because after
stripping only 20 characters remain. -/
theorem C9_counterexample :
    (joinNL (textParts 1 [str "xxxxx" ++ List.replicate 480 ' '])).length
        = 500 ∧
    (pystrip (joinNL
        (textParts 1 [str "xxxxx" ++ List.replicate 480 ' ']))).length = 20 ∧
    (extract_text_from_pdf [str "xxxxx" ++ List.replicate 480 ' ']
        [str "ocr"]).2 = true := by
  decide

set_option maxRecDepth 20000 in
/-- C9, amended: the OCR fallback triggers exactly when the concatenated
digital text has fewer than 100 characters AFTER Python `str.strip()`; on
whitespace-free digital text of lengths 40 and 500 the claim's two instances
do hold (a one-page text of 25 characters gives concatenated length 40 with
the page marker and triggers OCR; one of 485 characters gives length 500 and
does not). -/
theorem C9_amended_ocr_trigger :
    (∀ pages ocrPages, (extract_text_from_pdf pages ocrPages).2 = true ↔
      (pystrip (joinNL (textParts 1 pages))).length < 100) ∧
    (joinNL (textParts 1 [List.replicate 25 'a'])).length = 40 ∧
    (extract_text_from_pdf [List.replicate 25 'a'] []).2 = true ∧
    (joinNL (textParts 1 [List.replicate 485 'a'])).length = 500 ∧
    (extract_text_from_pdf [List.replicate 485 'a'] []).2 = false := by
  refine ⟨fun pages ocrPages => ?_, by decide, by decide, by decide, by decide⟩
  unfold extract_text_from_pdf
  by_cases h : (pystrip (joinNL (textParts 1 pages))).length < 100
  · simp [h]
  · simp [h]

end EmailAgent
